import Mathlib

/-!
Verification of the RAID6 erasure-coding core of this repository.

The Python sources are shallowly embedded as Lean functions:

* src/ffield.py   — class GaloisField: GF(2^8) arithmetic via log/antilog
  tables (w = 8, modulus = 0b100011101 = 285, x_to_w = 256), vector dot,
  matrix multiplication and Gauss-Jordan inversion;
* src/raid6.py    — class RAID6 (with the defaults of src/config.py:
  NUM_DATA_DISK N = 6, NUM_CHECKSUM_DISK M = 2, CHUNK_SIZE = 16):
  padding/striping, parity computation, corruption check and rebuild;
* src/config.py   — the constants.

Machine integers are modelled as Nat (non-negative Python ints) and, where
the numpy arrays can hold the -1 sentinel returned by GaloisField.div, as
Int.  Python lists and numpy arrays become Lean lists.
-/

set_option maxRecDepth 10000

namespace GaloisField

/-- One step of the generator recurrence in GaloisField.setup_tables
(src/ffield.py): `b = b << 1; if b & self.x_to_w: b = b ^ self.modulus`
with w = 8, so x_to_w = 256 and modulus = 0b100011101 = 285. -/
def xtime (b : Nat) : Nat :=
  if (b <<< 1) &&& 256 ≠ 0 then (b <<< 1) ^^^ 285 else b <<< 1

/-- Loop body of GaloisField.setup_tables: state is (gflog, gfilog, b);
iteration `lg` sets `gflog[b] = lg`, `gfilog[lg] = b` and advances b. -/
def setupStep (st : List Nat × List Nat × Nat) (lg : Nat) :
    List Nat × List Nat × Nat :=
  (st.1.set st.2.2 lg, st.2.1.set lg st.2.2, xtime st.2.2)

/-- GaloisField.setup_tables: starting from two zero tables of length 256
and b = 1, run the recurrence for log = 0 .. 254. -/
def setupTables : List Nat × List Nat × Nat :=
  (List.range 255).foldl setupStep (List.replicate 256 0, List.replicate 256 0, 1)

/-- The gflog table built by setup_tables. -/
def gflogL : List Nat := setupTables.1

/-- The gfilog table built by setup_tables. -/
def gfilogL : List Nat := setupTables.2.1

/-- The 256 entries of gflog packed into one Nat, little-endian in base 256
(entry a sits at bits [8a, 8a+8)).  Proved below (logT_eq_table) to agree
with the table the source builds. -/
def gflogN : Nat := 22135253156888987530748098150270024343632497605293634117281264061560962248099620766229961468867162294233796152347975563017024165690400661622462404646302566225833645086064538892198543335321514950294300187779610338557442029018619797274438901674641748676613670242915365385819254959901651105240253464034662486586186382979728982817772067067513442677601938078891989292316012868233806586592927239821351197800766822366321181463280924672822998103315976779850880337712374790938628529953751181886374687897611504386983350015558142994211516619836411558782076806704747441947939324473761869443721989389604670425385080942269787340800

/-- The 256 entries of gfilog packed into one Nat, little-endian in base 256.
Proved below (ilogT_eq_table) to agree with the table the source builds. -/
def gfilogN : Nat := 70160881166704368827218703435136616750530459438269794890424969378298545675077208731798828898087927652446353395360628748027273188182808436399538186061104243134188885576122562338679313492324190829158544377810568631194580132524405266702234305646236648896994794467054525044798919765581988418950285252905306116225263236585714808161311289784028762024137133735135393922581566890382566480334369299400480864790538739986285574563168380416343369614948461817839620668187777978661530364712890858126432457562886306102556561631759900551331094983229723298224611133722330829711659991602983068895685602467964643306841827719562658305

/-- Table lookup gflog[a] through the packed representation. -/
def logT (a : Nat) : Nat := (gflogN >>> (8 * a)) &&& 255

/-- Table lookup gfilog[k] through the packed representation. -/
def ilogT (k : Nat) : Nat := (gfilogN >>> (8 * k)) &&& 255

/-- GaloisField.add: addition is xor. -/
def add (a b : Nat) : Nat := a ^^^ b

/-- GaloisField.sub: subtraction is the same as add. -/
def sub (a b : Nat) : Nat := add a b

/-- GaloisField.mult (src/ffield.py): 0 if either operand is 0, otherwise
`gfilog[sum]` where sum = gflog[a] + gflog[b], reduced by x_to_w - 1 = 255
when it reaches it.  Table lookups go through the packed tables, which are
proved to agree with the ones setup_tables builds. -/
def mult (a b : Nat) : Nat :=
  if a = 0 ∨ b = 0 then 0
  else
    ilogT ((fun s => if 255 ≤ s then s - 255 else s) (logT a + logT b))

/-- GaloisField.div (src/ffield.py): 0 if a = 0, the -1 sentinel if b = 0,
otherwise `gfilog[diff]` where diff = gflog[a] - gflog[b], raised by 255
when negative.  The sentinel forces the Int return type (Python ints). -/
def div (a b : Nat) : Int :=
  if a = 0 then 0
  else if b = 0 then -1
  else
    (fun d : Int => (ilogT (if d < 0 then d + 255 else d).toNat : Int))
      ((logT a : Int) - (logT b : Int))

/-- The loop of GaloisField.power: res = 1; n times res = mult(a, res). -/
def powerAux (a : Nat) : Nat → Nat
  | 0 => 1
  | k + 1 => mult a (powerAux a k)

/-- GaloisField.power (src/ffield.py): `n %= self.x_to_w - 1` then the
repeated-multiplication loop. -/
def power (a n : Nat) : Nat := powerAux a (n % 255)

/-- The gflog table written out: index a holds the discrete log of a. -/
def gflogLit : List Nat := [0, 0, 1, 25, 2, 50, 26, 198, 3, 223, 51, 238, 27, 104, 199, 75, 4, 100, 224, 14, 52, 141, 239, 129, 28, 193, 105, 248, 200, 8, 76, 113, 5, 138, 101, 47, 225, 36, 15, 33, 53, 147, 142, 218, 240, 18, 130, 69, 29, 181, 194, 125, 106, 39, 249, 185, 201, 154, 9, 120, 77, 228, 114, 166, 6, 191, 139, 98, 102, 221, 48, 253, 226, 152, 37, 179, 16, 145, 34, 136, 54, 208, 148, 206, 143, 150, 219, 189, 241, 210, 19, 92, 131, 56, 70, 64, 30, 66, 182, 163, 195, 72, 126, 110, 107, 58, 40, 84, 250, 133, 186, 61, 202, 94, 155, 159, 10, 21, 121, 43, 78, 212, 229, 172, 115, 243, 167, 87, 7, 112, 192, 247, 140, 128, 99, 13, 103, 74, 222, 237, 49, 197, 254, 24, 227, 165, 153, 119, 38, 184, 180, 124, 17, 68, 146, 217, 35, 32, 137, 46, 55, 63, 209, 91, 149, 188, 207, 205, 144, 135, 151, 178, 220, 252, 190, 97, 242, 86, 211, 171, 20, 42, 93, 158, 132, 60, 57, 83, 71, 109, 65, 162, 31, 45, 67, 216, 183, 123, 164, 118, 196, 23, 73, 236, 127, 12, 111, 246, 108, 161, 59, 82, 41, 157, 85, 170, 251, 96, 134, 177, 187, 204, 62, 90, 203, 89, 95, 176, 156, 169, 160, 81, 11, 245, 22, 235, 122, 117, 44, 215, 79, 174, 213, 233, 230, 231, 173, 232, 116, 214, 244, 234, 168, 80, 88, 175]

/-- The gfilog table written out: index k holds the k-th power of the
generator 2. -/
def gfilogLit : List Nat := [1, 2, 4, 8, 16, 32, 64, 128, 29, 58, 116, 232, 205, 135, 19, 38, 76, 152, 45, 90, 180, 117, 234, 201, 143, 3, 6, 12, 24, 48, 96, 192, 157, 39, 78, 156, 37, 74, 148, 53, 106, 212, 181, 119, 238, 193, 159, 35, 70, 140, 5, 10, 20, 40, 80, 160, 93, 186, 105, 210, 185, 111, 222, 161, 95, 190, 97, 194, 153, 47, 94, 188, 101, 202, 137, 15, 30, 60, 120, 240, 253, 231, 211, 187, 107, 214, 177, 127, 254, 225, 223, 163, 91, 182, 113, 226, 217, 175, 67, 134, 17, 34, 68, 136, 13, 26, 52, 104, 208, 189, 103, 206, 129, 31, 62, 124, 248, 237, 199, 147, 59, 118, 236, 197, 151, 51, 102, 204, 133, 23, 46, 92, 184, 109, 218, 169, 79, 158, 33, 66, 132, 21, 42, 84, 168, 77, 154, 41, 82, 164, 85, 170, 73, 146, 57, 114, 228, 213, 183, 115, 230, 209, 191, 99, 198, 145, 63, 126, 252, 229, 215, 179, 123, 246, 241, 255, 227, 219, 171, 75, 150, 49, 98, 196, 149, 55, 110, 220, 165, 87, 174, 65, 130, 25, 50, 100, 200, 141, 7, 14, 28, 56, 112, 224, 221, 167, 83, 166, 81, 162, 89, 178, 121, 242, 249, 239, 195, 155, 43, 86, 172, 69, 138, 9, 18, 36, 72, 144, 61, 122, 244, 245, 247, 243, 251, 235, 203, 139, 11, 22, 44, 88, 176, 125, 250, 233, 207, 131, 27, 54, 108, 216, 173, 71, 142, 0]

/-- The table construction of setup_tables produces exactly the literal
gflog table. -/
theorem gflogL_eq : gflogL = gflogLit := by decide

/-- The table construction of setup_tables produces exactly the literal
gfilog table. -/
theorem gfilogL_eq : gfilogL = gfilogLit := by decide

/-- The packed gflog lookup agrees with the table setup_tables builds. -/
theorem logT_eq_table : ∀ a, a < 256 → logT a = gflogL.getD a 0 := by
  have h : ∀ a, a < 256 → logT a = gflogLit.getD a 0 := by decide
  intro a ha
  rw [gflogL_eq]
  exact h a ha

/-- The packed gfilog lookup agrees with the table setup_tables builds. -/
theorem ilogT_eq_table : ∀ k, k < 256 → ilogT k = gfilogL.getD k 0 := by
  have h : ∀ k, k < 256 → ilogT k = gfilogLit.getD k 0 := by decide
  intro k hk
  rw [gfilogL_eq]
  exact h k hk

/-- Every antilog entry with exponent below 255 is a nonzero byte. -/
theorem ilogT_lt : ∀ k, k < 255 → ilogT k < 256 ∧ ilogT k ≠ 0 := by decide

/-- Every log entry of a nonzero byte is below 255. -/
theorem logT_lt : ∀ a, a < 256 → a ≠ 0 → logT a < 255 := by decide

/-- log inverts antilog on exponents below 255. -/
theorem logT_ilogT : ∀ k, k < 255 → logT (ilogT k) = k := by decide

/-- antilog inverts log on nonzero bytes. -/
theorem ilogT_logT : ∀ a, a < 256 → a ≠ 0 → ilogT (logT a) = a := by decide

/-- The generator recurrence advances the antilog table cyclically. -/
theorem xtime_ilogT : ∀ k, k < 255 → xtime (ilogT k) = ilogT ((k + 1) % 255) := by decide

/-- Left shift distributes over xor. -/
theorem shiftLeft_xor_distrib (x y n : Nat) :
    (x ^^^ y) <<< n = (x <<< n) ^^^ (y <<< n) := by
  apply Nat.eq_of_testBit_eq
  intro i
  simp only [Nat.testBit_shiftLeft, Nat.testBit_xor]
  by_cases h : n ≤ i <;> simp [h, ge_iff_le]

/-- The generator step is linear over xor (the heart of distributivity). -/
theorem xtime_xor (x y : Nat) : xtime (x ^^^ y) = xtime x ^^^ xtime y := by
  unfold xtime
  rw [shiftLeft_xor_distrib]
  have h256 : (256 : Nat) = 2 ^ 8 := by norm_num
  have hx : (x <<< 1) &&& 256 = ((x <<< 1).testBit 8).toNat * 256 := by
    rw [h256, Nat.and_two_pow]
  have hy : (y <<< 1) &&& 256 = ((y <<< 1).testBit 8).toNat * 256 := by
    rw [h256, Nat.and_two_pow]
  have hxy : ((x <<< 1) ^^^ (y <<< 1)) &&& 256 = ((x <<< 1) &&& 256) ^^^ ((y <<< 1) &&& 256) :=
    Nat.and_xor_distrib_right
  rcases hbx : (x <<< 1).testBit 8 <;> rcases hby : (y <<< 1).testBit 8 <;>
      simp only [hbx, Bool.toNat_true, Bool.toNat_false, one_mul, zero_mul] at hx <;>
      simp only [hby, Bool.toNat_true, Bool.toNat_false, one_mul, zero_mul] at hy <;>
      rw [hx, hy] at hxy <;>
      simp only [hxy, hx, hy, Nat.xor_self, Nat.zero_xor, Nat.xor_zero, ne_eq,
        not_true_eq_false, not_false_eq_true, if_true, if_false, ite_true, ite_false]
  all_goals norm_num
  all_goals simp [Nat.xor_assoc, Nat.xor_comm, Nat.xor_cancel_left, Nat.xor_self,
    Nat.zero_xor, Nat.xor_zero]
  · rw [← Nat.xor_assoc, Nat.xor_comm (x <<< 1) (y <<< 1), Nat.xor_assoc]
  · rw [Nat.xor_comm (y <<< 1) 285, Nat.xor_cancel_left]

/-- Iterating the generator step is linear over xor. -/
theorem xtime_iter_xor (j : Nat) : ∀ x y : Nat,
    xtime^[j] (x ^^^ y) = xtime^[j] x ^^^ xtime^[j] y := by
  induction j with
  | zero => intro x y; rfl
  | succ n ih =>
    intro x y
    simp only [Function.iterate_succ_apply, xtime_xor, ih]

/-- Iterating the generator step walks the antilog table. -/
theorem xtime_iter_ilogT (j : Nat) : ∀ k, k < 255 →
    xtime^[j] (ilogT k) = ilogT ((k + j) % 255) := by
  induction j with
  | zero => intro k hk; simp [Nat.mod_eq_of_lt hk]
  | succ n ih =>
    intro k hk
    rw [Function.iterate_succ_apply, xtime_ilogT k hk,
      ih ((k + 1) % 255) (Nat.mod_lt _ (by omega))]
    congr 1
    omega

/-- mult in log form: for nonzero bytes the conditional reduction of the
log sum is reduction mod 255. -/
theorem mult_log (a b : Nat) (ha : a < 256) (hb : b < 256)
    (ha0 : a ≠ 0) (hb0 : b ≠ 0) :
    mult a b = ilogT ((logT a + logT b) % 255) := by
  have hla := logT_lt a ha ha0
  have hlb := logT_lt b hb hb0
  unfold mult
  simp only [ha0, hb0, or_self, if_false, ite_false]
  congr 1
  split
  · omega
  · omega

/-- mult of a nonzero byte is iterated application of the generator step. -/
theorem mult_eq_iter (a b : Nat) (ha : a < 256) (hb : b < 256)
    (ha0 : a ≠ 0) (hb0 : b ≠ 0) :
    mult a b = xtime^[logT b] a := by
  have hla := logT_lt a ha ha0
  rw [mult_log a b ha hb ha0 hb0, ← ilogT_logT a ha ha0,
    xtime_iter_ilogT (logT b) (logT a) hla, logT_ilogT _ hla]

/-- mult with 0 on the right. -/
theorem mult_zero (a : Nat) : mult a 0 = 0 := by simp [mult]

/-- mult with 0 on the left. -/
theorem zero_mult (b : Nat) : mult 0 b = 0 := by simp [mult]

/-- GaloisField.mult is commutative. -/
theorem mult_comm (a b : Nat) : mult a b = mult b a := by
  unfold mult
  rw [Nat.add_comm]
  exact if_congr or_comm rfl rfl

/-- mult of bytes is a byte. -/
theorem mult_lt (a b : Nat) (ha : a < 256) (hb : b < 256) : mult a b < 256 := by
  by_cases ha0 : a = 0
  · simp [ha0, zero_mult]
  by_cases hb0 : b = 0
  · simp [hb0, mult_zero]
  rw [mult_log a b ha hb ha0 hb0]
  exact (ilogT_lt _ (Nat.mod_lt _ (by omega))).1

/-- mult of nonzero bytes is nonzero. -/
theorem mult_ne_zero (a b : Nat) (ha : a < 256) (hb : b < 256)
    (ha0 : a ≠ 0) (hb0 : b ≠ 0) : mult a b ≠ 0 := by
  rw [mult_log a b ha hb ha0 hb0]
  exact (ilogT_lt _ (Nat.mod_lt _ (by omega))).2

/-- log of a product of nonzero bytes. -/
theorem logT_mult (a b : Nat) (ha : a < 256) (hb : b < 256)
    (ha0 : a ≠ 0) (hb0 : b ≠ 0) :
    logT (mult a b) = (logT a + logT b) % 255 := by
  rw [mult_log a b ha hb ha0 hb0, logT_ilogT _ (Nat.mod_lt _ (by omega))]

/-- GaloisField.mult is associative on bytes. -/
theorem mult_assoc (a b c : Nat) (ha : a < 256) (hb : b < 256) (hc : c < 256) :
    mult (mult a b) c = mult a (mult b c) := by
  by_cases ha0 : a = 0
  · simp [ha0, zero_mult]
  by_cases hb0 : b = 0
  · simp [hb0, mult_zero, zero_mult]
  by_cases hc0 : c = 0
  · simp [hc0, mult_zero]
  have hab := mult_lt a b ha hb
  have hbc := mult_lt b c hb hc
  have hab0 := mult_ne_zero a b ha hb ha0 hb0
  have hbc0 := mult_ne_zero b c hb hc hb0 hc0
  rw [mult_log _ c hab hc hab0 hc0, mult_log a _ ha hbc ha0 hbc0,
    logT_mult a b ha hb ha0 hb0, logT_mult b c hb hc hb0 hc0]
  congr 1
  omega

/-- mult by 1 on the right is the identity on bytes. -/
theorem mult_one (a : Nat) (ha : a < 256) : mult a 1 = a := by
  by_cases ha0 : a = 0
  · simp [ha0, zero_mult]
  have h1 : logT 1 = 0 := by decide
  rw [mult_log a 1 ha (by norm_num) ha0 (by norm_num), h1,
    Nat.add_zero, Nat.mod_eq_of_lt (logT_lt a ha ha0), ilogT_logT a ha ha0]

/-- mult by 1 on the left is the identity on bytes. -/
theorem one_mult (a : Nat) (ha : a < 256) : mult 1 a = a := by
  rw [mult_comm, mult_one a ha]

/-- GaloisField.mult distributes over xor in the left argument. -/
theorem xor_mult (a b c : Nat) (ha : a < 256) (hb : b < 256) (hc : c < 256) :
    mult (a ^^^ b) c = mult a c ^^^ mult b c := by
  by_cases hc0 : c = 0
  · simp [hc0, mult_zero]
  by_cases ha0 : a = 0
  · simp [ha0, zero_mult]
  by_cases hb0 : b = 0
  · simp [hb0, zero_mult]
  by_cases hab : a = b
  · simp [hab, Nat.xor_self, zero_mult]
  have hxy : a ^^^ b < 256 := by
    have h256 : (256 : Nat) = 2 ^ 8 := by norm_num
    rw [h256] at ha hb ⊢
    exact Nat.xor_lt_two_pow ha hb
  have hxy0 : a ^^^ b ≠ 0 := fun h => hab (Nat.xor_eq_zero.mp h)
  rw [mult_eq_iter _ c hxy hc hxy0 hc0, mult_eq_iter a c ha hc ha0 hc0,
    mult_eq_iter b c hb hc hb0 hc0, xtime_iter_xor]

/-- GaloisField.mult distributes over xor in the right argument. -/
theorem mult_xor (a b c : Nat) (ha : a < 256) (hb : b < 256) (hc : c < 256) :
    mult a (b ^^^ c) = mult a b ^^^ mult a c := by
  rw [mult_comm a (b ^^^ c), mult_comm a b, mult_comm a c, xor_mult b c a hb hc ha]

/-- xor of bytes is a byte. -/
theorem xor_lt (a b : Nat) (ha : a < 256) (hb : b < 256) : a ^^^ b < 256 := by
  have h256 : (256 : Nat) = 2 ^ 8 := by norm_num
  rw [h256] at ha hb ⊢
  exact Nat.xor_lt_two_pow ha hb

/-- Multiplying by the tabled inverse of a nonzero byte yields 1. -/
theorem mult_div_inv : ∀ a, a < 256 → a ≠ 0 → mult a (div 1 a).toNat = 1 := by decide

/-- The conditional correction of a difference of logs is reduction mod 255. -/
theorem emod_cond (la lb : Nat) (h1 : la < 255) (h2 : lb < 255) :
    (if (la : Int) - lb < 0 then (la : Int) - lb + 255 else (la : Int) - lb)
      = ((la : Int) - lb) % 255 := by
  split <;> omega

/-- GaloisField.div of nonzero bytes in log form, and its range. -/
theorem div_log (a b : Nat) (ha : a < 256) (hb : b < 256)
    (ha0 : a ≠ 0) (hb0 : b ≠ 0) :
    div a b = (ilogT ((((logT a : Int) - logT b) % 255)).toNat : Nat) ∧
      0 ≤ div a b ∧ div a b < 256 := by
  have hla := logT_lt a ha ha0
  have hlb := logT_lt b hb hb0
  unfold div
  simp only [ha0, hb0, if_false, ite_false]
  rw [emod_cond (logT a) (logT b) hla hlb]
  have hlt : ((((logT a : Int) - logT b) % 255)).toNat < 255 := by omega
  refine ⟨rfl, by positivity, ?_⟩
  exact_mod_cast (ilogT_lt _ hlt).1

/-- div of bytes with nonzero divisor is a byte. -/
theorem div_in_range (a b : Nat) (ha : a < 256) (hb : b < 256) (hb0 : b ≠ 0) :
    0 ≤ div a b ∧ div a b < 256 := by
  by_cases ha0 : a = 0
  · simp [ha0, div]
  · exact (div_log a b ha hb ha0 hb0).2

/-- powerAux in log form: k-fold multiplication by a nonzero byte walks the
antilog table. -/
theorem powerAux_log : ∀ k : Nat, ∀ a, a < 256 → a ≠ 0 →
    powerAux a k = ilogT (k * logT a % 255) := by
  intro k
  induction k with
  | zero => intro a ha ha0; simp [powerAux]; decide
  | succ n ih =>
    intro a ha ha0
    have hla := logT_lt a ha ha0
    have hidx : n * logT a % 255 < 255 := Nat.mod_lt _ (by omega)
    have hPrev := ih a ha ha0
    have hPrevLt : powerAux a n < 256 := by
      rw [hPrev]; exact (ilogT_lt _ hidx).1
    have hPrev0 : powerAux a n ≠ 0 := by
      rw [hPrev]; exact (ilogT_lt _ hidx).2
    show mult a (powerAux a n) = _
    rw [mult_log a _ ha hPrevLt ha0 hPrev0, hPrev, logT_ilogT _ hidx]
    congr 1
    have hmul : (n + 1) * logT a = n * logT a + logT a := by ring
    rw [hmul]
    omega

/-- The entries of both tables are bytes. -/
theorem tables_lt : ∀ i, i < 256 → gflogL.getD i 0 < 256 ∧ gfilogL.getD i 0 < 256 := by
  have h : ∀ i, i < 256 → gflogLit.getD i 0 < 256 ∧ gfilogLit.getD i 0 < 256 := by decide
  intro i hi
  rw [gflogL_eq, gfilogL_eq]
  exact h i hi

end GaloisField

open GaloisField

/-- C4: for all field elements a, b, c in [0, q): add(a,b) = add(b,a);
mult(a,b) = mult(b,a); mult(a, add(b,c)) = add(mult(a,b), mult(a,c));
if a ≠ 0 then mult(a, div(1,a)) = 1; and if a ≠ 0 then power(a, q-1) = 1,
where the tables are built by setup_tables from the primitive modulus. -/
theorem claim_C4_field_axioms :
    ∀ a b c : Nat, a < 256 → b < 256 → c < 256 →
      (add a b = add b a) ∧
      (mult a b = mult b a) ∧
      (mult a (add b c) = add (mult a b) (mult a c)) ∧
      (a ≠ 0 → mult a (div 1 a).toNat = 1) ∧
      (a ≠ 0 → power a 255 = 1) := by
  intro a b c ha hb hc
  refine ⟨Nat.xor_comm a b, mult_comm a b, ?_, fun ha0 => mult_div_inv a ha ha0,
    fun _ => rfl⟩
  exact mult_xor a b c ha hb hc

/-- Witness for C4 at a = 3, b = 5, c = 7. -/
theorem claim_C4_field_axioms_witness :
    (add 3 5 = add 5 3) ∧
    (mult 3 5 = mult 5 3) ∧
    (mult 3 (add 5 7) = add (mult 3 5) (mult 3 7)) ∧
    ((3 : Nat) ≠ 0 → mult 3 (div 1 3).toNat = 1) ∧
    ((3 : Nat) ≠ 0 → power 3 255 = 1) :=
  claim_C4_field_axioms 3 5 7 (by norm_num) (by norm_num) (by norm_num)

/-- C6: for all field elements a, b: div(a,b) returns 0 when a = 0; signals
division by zero with the -1 sentinel when b = 0 and a ≠ 0 (the spec names
this sentinel DivideByZero); and otherwise returns
alog[(log[a] - log[b]) mod (q-1)], a value in [0, q). -/
theorem claim_C6_div_contract :
    ∀ a b : Nat, a < 256 → b < 256 →
      (a = 0 → div a b = 0) ∧
      (a ≠ 0 → b = 0 → div a b = -1) ∧
      (a ≠ 0 → b ≠ 0 →
        div a b = (ilogT ((((logT a : Int) - logT b) % 255)).toNat : Nat) ∧
        0 ≤ div a b ∧ div a b < 256) := by
  intro a b ha hb
  refine ⟨fun ha0 => by simp [div, ha0], fun ha0 hb0 => by simp [div, ha0, hb0],
    fun ha0 hb0 => div_log a b ha hb ha0 hb0⟩

/-- Witness for C6 at a = 6, b = 3. -/
theorem claim_C6_div_contract_witness :
    ((6 : Nat) = 0 → div 6 3 = 0) ∧
    ((6 : Nat) ≠ 0 → (3 : Nat) = 0 → div 6 3 = -1) ∧
    ((6 : Nat) ≠ 0 → (3 : Nat) ≠ 0 →
      div 6 3 = (ilogT ((((logT 6 : Int) - logT 3) % 255)).toNat : Nat) ∧
      0 ≤ div 6 3 ∧ div 6 3 < 256) :=
  claim_C6_div_contract 6 3 (by norm_num) (by norm_num)

/-- C9 counterexample: the claim asserts power(0, n) = 0 for every n > 0,
including positive multiples of q-1 = 255; but the source first reduces
n mod 255, so power(0, 255) returns 1, not 0. -/
theorem claim_C9_counterexample : power 0 255 = 1 ∧ power 0 255 ≠ 0 := by
  constructor <;> decide

/-- C9 (amended): power(a,n) equals a^n computed with the exponent reduced
mod (q-1) — in log form ilogT(n·log a mod 255) for a ≠ 0; power(a,0) = 1;
power(a,n) = 1 whenever n mod 255 = 0 (even for a = 0); and power(0,n) = 0
exactly for the n > 0 that are not multiples of q-1. -/
theorem claim_C9_power_contract :
    ∀ a n : Nat, a < 256 →
      (power a n = powerAux a (n % 255)) ∧
      (power a 0 = 1) ∧
      (n % 255 = 0 → power a n = 1) ∧
      (a = 0 → n % 255 ≠ 0 → power a n = 0) ∧
      (a ≠ 0 → power a n = ilogT (n * logT a % 255)) := by
  intro a n ha
  refine ⟨rfl, rfl, fun h => by rw [power, h]; rfl, fun ha0 hn => ?_, fun ha0 => ?_⟩
  · rcases hk : n % 255 with _ | k
    · exact absurd hk hn
    · rw [power, hk, ha0]
      show mult 0 (powerAux 0 k) = 0
      exact zero_mult _
  · rw [power, powerAux_log (n % 255) a ha ha0]
    congr 1
    exact Nat.mod_mul_mod

/-- Witness for C9 at a = 2, n = 300. -/
theorem claim_C9_power_contract_witness :
    (power 2 300 = powerAux 2 (300 % 255)) ∧
    (power 2 0 = 1) ∧
    ((300 : Nat) % 255 = 0 → power 2 300 = 1) ∧
    ((2 : Nat) = 0 → (300 : Nat) % 255 ≠ 0 → power 2 300 = 0) ∧
    ((2 : Nat) ≠ 0 → power 2 300 = ilogT (300 * logT 2 % 255)) :=
  claim_C9_power_contract 2 300 (by norm_num)

/-- C10: field operations on bytes stay bytes — add, mult, and (for nonzero
divisor) div map [0,256) into [0,256), and every entry of the gflog and
gfilog tables built by setup_tables lies in [0,256). -/
theorem claim_C10_closure :
    ∀ a b : Nat, a < 256 → b < 256 →
      (add a b < 256) ∧ (mult a b < 256) ∧
      (b ≠ 0 → 0 ≤ div a b ∧ div a b < 256) ∧
      (∀ i, i < 256 → gflogL.getD i 0 < 256 ∧ gfilogL.getD i 0 < 256) := by
  intro a b ha hb
  exact ⟨xor_lt a b ha hb, mult_lt a b ha hb,
    fun hb0 => div_in_range a b ha hb hb0, tables_lt⟩

/-- Witness for C10 at a = 200, b = 250. -/
theorem claim_C10_closure_witness :
    (add 200 250 < 256) ∧ (mult 200 250 < 256) ∧
    ((250 : Nat) ≠ 0 → 0 ≤ div 200 250 ∧ div 200 250 < 256) ∧
    (∀ i, i < 256 → gflogL.getD i 0 < 256 ∧ gfilogL.getD i 0 < 256) :=
  claim_C10_closure 200 250 (by norm_num) (by norm_num)

namespace RAID6

/-- Config.NUM_DATA_DISK (src/config.py). -/
def N : Nat := 6

/-- Config.NUM_CHECKSUM_DISK (src/config.py). -/
def M : Nat := 2

/-- Config.CHUNK_SIZE (src/config.py). -/
def chunkSize : Nat := 16

/-- The stripe count computed inside RAID6.pad_data (src/raid6.py):
`stripe_count = len(input_data) // stripe_size + 1` with
stripe_size = chunk_size * N. -/
def stripeCount (L : Nat) : Nat := L / (chunkSize * N) + 1

/-- numpy reshape of the padded flat list to shape (S, N, chunk_size),
row-major: entry (s, n, k) is flat[s*N*K + n*K + k]. -/
def reshapeSNK (flat : List Int) (S : Nat) : List (List (List Int)) :=
  (List.range S).map fun s =>
    (List.range N).map fun n =>
      (flat.drop (s * (N * chunkSize) + n * chunkSize)).take chunkSize

/-- numpy transpose with axes (1, 0, 2): (S, N, K) becomes (N, S, K). -/
def transpose102 (m : List (List (List Int))) : List (List (List Int)) :=
  (List.range N).map fun n => m.map fun row => row.getD n []

/-- RAID6.pad_data (src/raid6.py): append zero padding up to
stripe_count * stripe_size bytes, reshape to (stripe_count, N, K) and
transpose to (N, stripe_count, K). -/
def padData (input : List Int) : List (List (List Int)) :=
  transpose102 (reshapeSNK
    (input ++ List.replicate
      (stripeCount input.length * (chunkSize * N) - input.length) 0)
    (stripeCount input.length))

/-- RAID6.read_disk_data (src/raid6.py) applied to the state written by
encode_data: chunk (disk j, stripe i) holds row j, stripe i of the padded
data_with_parity array, the chunks are concatenated for i < strip and
j < N in that order, and the result is truncated to data_length. -/
def readDiskData (padded : List (List (List Int))) (strip dataLength : Nat) :
    List Int :=
  (((List.range strip).map fun i =>
      ((List.range N).map fun j => (padded.getD j []).getD i []).flatten).flatten).take
    dataLength

/-- getD of a mapped range picks the function value. -/
theorem getD_map_range {β : Type} (f : Nat → β) (d : β) (n j : Nat) (h : j < n) :
    (((List.range n).map f).getD j d) = f j := by
  rw [List.getD_eq_getElem?_getD, List.getElem?_map, List.getElem?_range h]
  rfl

/-- getD of a mapped list picks the mapped element. -/
theorem getD_map_lt {α β : Type} (g : α → β) (d : β) (d0 : α) (l : List α)
    (i : Nat) (h : i < l.length) :
    (l.map g).getD i d = g (l.getD i d0) := by
  rw [List.getD_eq_getElem?_getD, List.getElem?_map,
    List.getElem?_eq_getElem h, List.getD_eq_getElem?_getD,
    List.getElem?_eq_getElem h]
  rfl

/-- Concatenating c consecutive n-blocks of a list gives its first c*n
elements. -/
theorem flatten_blocks {α : Type} (n : Nat) :
    ∀ (c : Nat) (P : List α),
      ((List.range c).map fun i => (P.drop (i * n)).take n).flatten
        = P.take (c * n) := by
  intro c
  induction c with
  | zero => intro P; simp
  | succ m ih =>
    intro P
    rw [List.range_succ_eq_map, List.map_cons, List.map_map, List.flatten_cons]
    have h1 : (List.range m).map ((fun i => (P.drop (i * n)).take n) ∘ Nat.succ)
        = (List.range m).map fun i => ((P.drop n).drop (i * n)).take n := by
      apply List.map_congr_left
      intro i _
      simp only [Function.comp_apply]
      rw [List.drop_drop]
      congr 2
      rw [Nat.succ_mul]
      ring
    rw [h1, ih (P.drop n), Nat.zero_mul, List.drop_zero, Nat.succ_mul,
      Nat.add_comm (m * n) n, List.take_add]

/-- The (stripe, disk)-ordered chunk traversal reassembles the flat list. -/
theorem flatten_chunks (S : Nat) (P : List Int) :
    ((List.range S).map fun i =>
        ((List.range N).map fun j =>
          (P.drop (i * (N * chunkSize) + j * chunkSize)).take chunkSize).flatten).flatten
      = P.take (S * (N * chunkSize)) := by
  have hInner : ∀ i ∈ List.range S,
      ((List.range N).map fun j =>
          (P.drop (i * (N * chunkSize) + j * chunkSize)).take chunkSize).flatten
        = (P.drop (i * (N * chunkSize))).take (N * chunkSize) := by
    intro i _
    rw [← flatten_blocks chunkSize N (P.drop (i * (N * chunkSize)))]
    congr 1
    apply List.map_congr_left
    intro j _
    rw [List.drop_drop]
  rw [List.map_congr_left hInner]
  exact flatten_blocks (N * chunkSize) S P

/-- The cell (disk j, stripe i) of the padded array is the corresponding
block of the zero-extended input. -/
theorem padData_cell (x : List Int) (i j : Nat) (hi : i < stripeCount x.length)
    (hj : j < N) :
    ((padData x).getD j []).getD i []
      = ((x ++ List.replicate
            (stripeCount x.length * (chunkSize * N) - x.length) 0).drop
          (i * (N * chunkSize) + j * chunkSize)).take chunkSize := by
  unfold padData transpose102
  rw [getD_map_range _ _ _ _ hj]
  unfold reshapeSNK
  rw [getD_map_lt _ _ [] _ _ (by simp [hi]), getD_map_range _ _ _ _ hi,
    getD_map_range _ _ _ _ hj]

/-- C3: for every byte string x of any length, padding and reshaping it
into the (N, S, chunk_size) stripe matrix (pad_data) and then reversing the
reshape and truncating to the first len(x) bytes (read_disk_data with
data_length = len(x) after encode) yields exactly x. -/
theorem claim_C3_round_trip (x : List Int) :
    readDiskData (padData x) (stripeCount x.length) x.length = x := by
  unfold readDiskData
  have hlen : x.length ≤ stripeCount x.length * (chunkSize * N) := by
    show x.length ≤ (x.length / (16 * 6) + 1) * (16 * 6)
    omega
  have hOuter : ∀ i ∈ List.range (stripeCount x.length),
      ((List.range N).map fun j => ((padData x).getD j []).getD i []).flatten
        = ((List.range N).map fun j =>
            ((x ++ List.replicate
                (stripeCount x.length * (chunkSize * N) - x.length) 0).drop
              (i * (N * chunkSize) + j * chunkSize)).take chunkSize).flatten := by
    intro i hi
    congr 1
    apply List.map_congr_left
    intro j hj
    exact padData_cell x i j (List.mem_range.mp hi) (List.mem_range.mp hj)
  rw [List.map_congr_left hOuter, flatten_chunks]
  rw [List.take_take]
  have hmin : min x.length (stripeCount x.length * (N * chunkSize)) = x.length := by
    have h2 : x.length ≤ stripeCount x.length * (N * chunkSize) := by
      show x.length ≤ (x.length / (16 * 6) + 1) * (6 * 16)
      omega
    omega
  rw [hmin, List.take_left' rfl]

/-- C8 counterexample: for an input of exactly L = 96 = N·chunk_size bytes
the true ceiling is 1 stripe, but pad_data produces 2 stripes. -/
theorem claim_C8_counterexample :
    stripeCount 96 = 2 ∧
    (96 + (chunkSize * N) - 1) / (chunkSize * N) = 1 ∧
    ((padData (List.replicate 96 0)).getD 0 []).length = 2 := by
  refine ⟨by norm_num [stripeCount, chunkSize, N], by norm_num [chunkSize, N], ?_⟩
  decide

/-- C8 (amended): pad_data always produces S = L/(N·chunk_size) + 1
stripes: the true ceiling ceil(L/(N·chunk_size)) when L is not an exact
multiple of N·chunk_size, and one stripe more than the ceiling when L is an
exact multiple (including L = 0); the outer dimension of every disk row of
the produced array equals that S. -/
theorem claim_C8_stripe_count (L : Nat) :
    stripeCount L = L / (chunkSize * N) + 1 ∧
    (L % (chunkSize * N) ≠ 0 →
      stripeCount L = (L + (chunkSize * N) - 1) / (chunkSize * N)) ∧
    (L % (chunkSize * N) = 0 →
      stripeCount L = (L + (chunkSize * N) - 1) / (chunkSize * N) + 1) ∧
    (∀ x : List Int, x.length = L →
      ((padData x).getD 0 []).length = stripeCount L) := by
  refine ⟨rfl, ?_, ?_, ?_⟩
  · intro h
    simp only [stripeCount, chunkSize, N] at h ⊢
    omega
  · intro h
    simp only [stripeCount, chunkSize, N] at h ⊢
    omega
  · intro x hx
    unfold padData transpose102
    rw [getD_map_range _ _ _ _ (by norm_num [N])]
    rw [List.length_map]
    unfold reshapeSNK
    rw [List.length_map, List.length_range, hx]

/-- Witness for C8: the amended stripe counts at L = 100 (not a multiple)
and L = 96 (an exact multiple), and the shape of a padded 100-byte input. -/
theorem claim_C8_stripe_count_witness :
    stripeCount 100 = (100 + (chunkSize * N) - 1) / (chunkSize * N) ∧
    stripeCount 96 = (96 + (chunkSize * N) - 1) / (chunkSize * N) + 1 ∧
    ((padData (List.replicate 100 0)).getD 0 []).length = stripeCount 100 :=
  ⟨(claim_C8_stripe_count 100).2.1 (by norm_num [chunkSize, N]),
   (claim_C8_stripe_count 96).2.2.1 (by norm_num [chunkSize, N]),
   (claim_C8_stripe_count 100).2.2.2 (List.replicate 100 0) (by simp)⟩

end RAID6

namespace GaloisField

/-- Python xor on ints (two's complement): numpy applies GaloisField.add
elementwise to int arrays, which can hold the -1 sentinel of div. -/
def xorZ (a b : Int) : Int :=
  if 0 ≤ a then
    if 0 ≤ b then ((a.toNat ^^^ b.toNat : Nat) : Int)
    else -((((a.toNat ^^^ (-b - 1).toNat) : Nat) : Int)) - 1
  else
    if 0 ≤ b then -((((((-a - 1).toNat ^^^ b.toNat)) : Nat) : Int)) - 1
    else ((((-a - 1).toNat ^^^ (-b - 1).toNat) : Nat) : Int)

/-- GaloisField.mult as it acts on numpy int entries: the zero test is on
the int itself, and a negative entry (the -1 sentinel of div, magnitude at
most 256) indexes the length-256 tables from the end as in Python, i.e. at
index a mod 256. -/
def multZ (a b : Int) : Int :=
  if a = 0 ∨ b = 0 then 0
  else ((mult (a % 256).toNat (b % 256).toNat : Nat) : Int)

/-- GaloisField.div as it acts on numpy int entries, with the same
negative-index convention as multZ. -/
def divZ (a b : Int) : Int :=
  if a = 0 then 0
  else if b = 0 then -1
  else div (a % 256).toNat (b % 256).toNat

/-- GaloisField.dot: res = 0; if the lengths agree, fold
res = add(res, mult(v1[i], v2[i])) over the entries; on a length mismatch
the loop is skipped and the initial res = 0 is returned. -/
def dotZ (v1 v2 : List Int) : Int :=
  if v1.length = v2.length then
    (List.zip v1 v2).foldl (fun r p => xorZ r (multZ p.1 p.2)) 0
  else 0

/-- Number of rows of a list matrix (numpy shape[0]). -/
def rowsOf (m : List (List Int)) : Nat := m.length

/-- Number of columns of a list matrix (numpy shape[1], read off the first
row of a rectangular array). -/
def colsOf (m : List (List Int)) : Nat := (m.headD []).length

/-- The entry grid of GaloisField.matmul, used once the shape check has
passed: res[i][j] = dot(m1[i, :], m2[:, j]). -/
def matmulU (m1 m2 : List (List Int)) : List (List Int) :=
  m1.map fun row =>
    (List.range (colsOf m2)).map fun j => dotZ row (m2.map fun r => r.getD j 0)

/-- GaloisField.matmul: the dot-product matrix when the inner dimensions
agree, None (modelled none) otherwise. -/
def matmul (m1 m2 : List (List Int)) : Option (List (List Int)) :=
  if colsOf m1 = rowsOf m2 then some (matmulU m1 m2) else none

/-- np.transpose of a 2-d array. -/
def transposeZ (m : List (List Int)) : List (List Int) :=
  (List.range (colsOf m)).map fun j => m.map fun r => r.getD j 0

/-- np.eye(n, dtype=int). -/
def eyeZ (n : Nat) : List (List Int) :=
  (List.range n).map fun i => (List.range n).map fun j => if i = j then 1 else 0

/-- The inner `for k in range(i+1, dim): if A_[k, i]: break` search of
GaloisField.inverse.  Python leaves the loop variable k at the first hit;
at dim-1 when the nonempty range finds no hit; and untouched when the range
is empty — the stale value of a previous iteration, or a NameError (none)
when k was never assigned. -/
def pivotSearch (aug : List (List Int)) (i dim : Nat) (kst : Option Nat) :
    Option Nat :=
  match (List.range' (i + 1) (dim - (i + 1))).find?
      (fun k => decide ((aug.getD k []).getD i 0 ≠ 0)) with
  | some k => some k
  | none => if i + 1 < dim then some (dim - 1) else kst

/-- The `for j in range(i+1, dim)` elimination below the pivot row:
A_[j, :] = add(A_[j, :], mult(A_[i, :], div(A_[j, i], A_[i, i]))). -/
def elimBelow (dim : Nat) (aug : List (List Int)) (i : Nat) : List (List Int) :=
  (List.range' (i + 1) (dim - (i + 1))).foldl (fun acc j =>
    acc.set j (List.zipWith xorZ (acc.getD j [])
      ((acc.getD i []).map fun x =>
        multZ x (divZ ((acc.getD j []).getD i 0) ((acc.getD i []).getD i 0))))) aug

/-- One iteration i of the forward loop of GaloisField.inverse: optional
pivot fixup (row i += row k), normalisation of row i by A_[i, i], and
elimination below; the state carries the augmented matrix and the stale
loop variable k. -/
def forwardStep (dim : Nat) (st : Option (List (List Int) × Option Nat))
    (i : Nat) : Option (List (List Int) × Option Nat) :=
  match st with
  | none => none
  | some (aug0, kst0) =>
    let fixed : Option (List (List Int) × Option Nat) :=
      if (aug0.getD i []).getD i 0 = 0 then
        match pivotSearch aug0 i dim kst0 with
        | none => none
        | some k =>
          some (aug0.set i (List.zipWith xorZ (aug0.getD i []) (aug0.getD k [])),
            some k)
      else some (aug0, kst0)
    match fixed with
    | none => none
    | some (aug1, kst1) =>
      let aug2 := aug1.set i
        ((aug1.getD i []).map fun x => divZ x ((aug1.getD i []).getD i 0))
      some (elimBelow dim aug2 i, kst1)

/-- One iteration i of the back-substitution loop of GaloisField.inverse:
for j < i, A_[j, :] = add(A_[j, :], mult(A_[i, :], A_[j, i])). -/
def backStep (_dim : Nat) (aug : List (List Int)) (i : Nat) :
    List (List Int) :=
  (List.range i).foldl (fun acc j =>
    acc.set j (List.zipWith xorZ (acc.getD j [])
      ((acc.getD i []).map fun x => multZ x ((acc.getD j []).getD i 0)))) aug

/-- GaloisField.inverse (src/ffield.py): for square A run Gauss-Jordan on
the augmented (A | I); for non-square A run it on A^T A and multiply the
result by A^T.  The only failure mode is the Python NameError of the pivot
search (see pivotSearch), modelled as none. -/
def inverse (A : List (List Int)) : Option (List (List Int)) :=
  let A1 := if rowsOf A = colsOf A then A else matmulU (transposeZ A) A
  let dim := rowsOf A1
  let aug := List.zipWith (fun r e => r ++ e) A1 (eyeZ dim)
  match (List.range dim).foldl (forwardStep dim) (some (aug, none)) with
  | none => none
  | some (fwd, _) =>
    let aug2 := ((List.range dim).reverse).foldl (backStep dim) fwd
    let inv := aug2.map fun row => (row.drop dim).take dim
    if rowsOf A = colsOf A then some inv else some (matmulU inv (transposeZ A))

end GaloisField

namespace RAID6

/-- GaloisField.setup_vander with the config sizes: the M x N matrix with
vander[i][j] = power(j+1, i), over numpy int entries. -/
def vanderZ : List (List Int) :=
  (List.range M).map fun i =>
    (List.range N).map fun j => ((GaloisField.power (j + 1) i : Nat) : Int)

/-- np.concatenate of two row blocks along axis 0: numpy gives an empty
Python list the 1-d shape (0,), so concatenating it with a nonempty 2-d
block raises ValueError; modelled as none exactly when one block is empty
and the other is not. -/
def concatRows (xs ys : List (List Int)) : Option (List (List Int)) :=
  if xs.isEmpty ≠ ys.isEmpty then none else some (xs ++ ys)

/-- np.delete(A, obj=chunk_list, axis=0): keep the rows whose index is not
listed, in order. -/
def deleteRows (A : List (List Int)) (idx : List Nat) : List (List Int) :=
  ((List.range A.length).filter fun i => ¬ i ∈ idx).map fun i => A.getD i []

/-- The combined matrix A = np.concatenate([np.eye(N), vander], axis=0)
built inside RAID6.rebuild_stripe_data. -/
def AfullZ : List (List Int) := GaloisField.eyeZ N ++ vanderZ

/-- RAID6.rebuild_stripe_data (src/raid6.py) on one stripe of the disk
state, with the file reads and writes made explicit: the stripe is the
list of the N+M chunks (disk 0 .. disk N+M-1) of that stripe, and the
result pairs the boolean the method returns with the stripe contents after
its writes.  When more than M chunks are listed it returns False and
writes nothing.  Otherwise it reads the surviving data and parity chunks
in ascending disk order (list(set(...) - set(...)) on small CPython ints
iterates ascending), solves D = inverse(A') E and recomputes C = F D, and
rewrites exactly the chunks in chunk_list from (D; C).  A none models an
uncaught Python exception (numpy shape error in concatRows, NameError in
the pivot search). -/
def rebuildStripeData (stripe : List (List Int)) (chunkList : List Nat) :
    Option (Bool × List (List Int)) :=
  if M < chunkList.length then some (false, stripe)
  else
    match concatRows
        (((List.range N).filter fun i => ¬ i ∈ chunkList).map
          fun i => stripe.getD i [])
        (((List.range' N M).filter fun i => ¬ i ∈ chunkList).map
          fun i => stripe.getD i []) with
    | none => none
    | some E2 =>
      match GaloisField.inverse (deleteRows AfullZ chunkList) with
      | none => none
      | some Ainv =>
        match GaloisField.matmul Ainv E2 with
        | none => none
        | some D =>
          match GaloisField.matmul vanderZ D with
          | none => none
          | some C =>
            some (true, (List.range (N + M)).map fun i =>
              if i ∈ chunkList then (D ++ C).getD i [] else stripe.getD i [])

end RAID6

/-- C5: for every call to reconstruct (rebuild_stripe_data) with more than
M erased indices, the call fails (returns False, which the spec names
TooManyErasures) and writes nothing: every chunk of the stripe is
unchanged. -/
theorem claim_C5_too_many_erasures (stripe : List (List Int)) (E : List Nat)
    (h : RAID6.M < E.length) :
    RAID6.rebuildStripeData stripe E = some (false, stripe) := by
  unfold RAID6.rebuildStripeData
  rw [if_pos h]

/-- Witness for C5: erasing three of the eight chunks of a one-byte-chunk
stripe returns False and leaves the stripe unchanged. -/
theorem claim_C5_too_many_erasures_witness :
    RAID6.rebuildStripeData [[1], [2], [3], [4], [5], [6], [7], [8]] [0, 1, 2]
      = some (false, [[1], [2], [3], [4], [5], [6], [7], [8]]) :=
  claim_C5_too_many_erasures [[1], [2], [3], [4], [5], [6], [7], [8]] [0, 1, 2]
    (by norm_num [RAID6.M])

/-- C7 (the code bug made concrete): on the singular 2 x 2 zero matrix the
pivot search of GaloisField.inverse finds no nonzero entry below the zero
pivot, but instead of failing with Singular the code adds the last row
(the Python loop variable is left at dim-1), divides the row by the zero
pivot — turning entries into the -1 sentinel of div — and returns a
matrix. -/
theorem claim_C7_singular_returns_matrix :
    GaloisField.inverse [[0, 0], [0, 0]] = some [[-1, -1], [0, 0]] := by decide

namespace NatModel

open GaloisField

/-! Proof-internal restatement of the matrix operations over Nat entries.
On byte matrices (every entry in [0, 256)) the Int operations of the
source coincide with these, which is proved below and lets the field
lemmas about GaloisField.mult apply. -/

/-- All entries of a Nat vector are bytes. -/
def VecLt (v : List Nat) : Prop := ∀ x ∈ v, x < 256

/-- gf.dot over Nat entries. -/
def dotN (v w : List Nat) : Nat :=
  (List.zip v w).foldl (fun r p => r ^^^ mult p.1 p.2) 0

/-- Column j of a Nat matrix. -/
def colN (m : List (List Nat)) (j : Nat) : List Nat := m.map fun r => r.getD j 0

/-- gf.matmul's entry grid over Nat entries. -/
def matmulN (m1 m2 : List (List Nat)) : List (List Nat) :=
  m1.map fun row => (List.range (m2.headD []).length).map fun j => dotN row (colN m2 j)

/-- np.eye over Nat entries. -/
def eyeN (n : Nat) : List (List Nat) :=
  (List.range n).map fun i => (List.range n).map fun j => if i = j then 1 else 0

/-- Truncation of an Int matrix to Nat entries. -/
def toNatM (m : List (List Int)) : List (List Nat) := m.map fun r => r.map Int.toNat

/-- Embedding of a Nat vector into Int entries. -/
def castV (v : List Nat) : List Int := List.map (fun x : Nat => (x : Int)) v

/-- Embedding of a Nat matrix into Int entries. -/
def castM (m : List (List Nat)) : List (List Int) := m.map castV

/-- The fold of gf.dot from a general initial value. -/
theorem foldl_xor_init (l : List (Nat × Nat)) : ∀ init : Nat,
    l.foldl (fun r p => r ^^^ mult p.1 p.2) init
      = init ^^^ l.foldl (fun r p => r ^^^ mult p.1 p.2) 0 := by
  induction l with
  | nil => intro init; simp
  | cons p l ih =>
    intro init
    simp only [List.foldl_cons]
    rw [ih (init ^^^ mult p.1 p.2), ih (0 ^^^ mult p.1 p.2), Nat.zero_xor,
      Nat.xor_assoc]

/-- dot on a pair of cons cells. -/
theorem dotN_cons (a b : Nat) (v w : List Nat) :
    dotN (a :: v) (b :: w) = mult a b ^^^ dotN v w := by
  unfold dotN
  rw [List.zip_cons_cons, List.foldl_cons, foldl_xor_init, Nat.zero_xor]

/-- dot with an empty left vector. -/
theorem dotN_nil_left (w : List Nat) : dotN [] w = 0 := rfl

/-- dot with an empty right vector. -/
theorem dotN_nil_right (v : List Nat) : dotN v [] = 0 := by
  unfold dotN
  rw [List.zip_nil_right]
  rfl

/-- dot of byte vectors is a byte. -/
theorem dotN_lt (v : List Nat) : ∀ w, VecLt v → VecLt w → dotN v w < 256 := by
  induction v with
  | nil => intro w _ _; simp [dotN_nil_left]
  | cons a v ih =>
    intro w hv hw
    cases w with
    | nil => simp [dotN_nil_right]
    | cons b w =>
      rw [dotN_cons]
      exact xor_lt _ _
        (mult_lt a b (hv a (by simp)) (hw b (by simp)))
        (ih w (fun x hx => hv x (by simp [hx])) (fun x hx => hw x (by simp [hx])))

/-- dot against an all-zero vector vanishes. -/
theorem dotN_zero_row (n : Nat) : ∀ w, dotN (List.replicate n 0) w = 0 := by
  induction n with
  | zero => intro w; simp [dotN_nil_left, List.replicate]
  | succ m ih =>
    intro w
    cases w with
    | nil => simp [dotN_nil_right]
    | cons b w =>
      rw [List.replicate_succ, dotN_cons, zero_mult, ih w, Nat.zero_xor]

/-- dot against a standard basis row picks one coordinate. -/
theorem dotN_delta (d : List Nat) : ∀ i, VecLt d → i < d.length →
    dotN ((List.range d.length).map fun j => if i = j then 1 else 0) d
      = d.getD i 0 := by
  induction d with
  | nil => intro i _ hi; simp at hi
  | cons x d ih =>
    intro i hd hi
    rw [List.length_cons, List.range_succ_eq_map, List.map_cons, List.map_map]
    rcases i with _ | i
    · have hTail : (List.map ((fun j => if 0 = j then 1 else 0) ∘ Nat.succ)
          (List.range d.length)) = List.replicate d.length 0 := by
        have h0 : ∀ j ∈ List.range d.length,
            ((fun j => if 0 = j then 1 else 0) ∘ Nat.succ) j = (fun _ => 0) j := by
          intro j _
          simp [Function.comp]
        rw [List.map_congr_left h0]
        simp
      rw [hTail, dotN_cons, dotN_zero_row, Nat.xor_zero, if_pos rfl,
        one_mult x (hd x (by simp))]
      rfl
    · have hTail : (List.map ((fun j => if i + 1 = j then 1 else 0) ∘ Nat.succ)
          (List.range d.length)) = (List.range d.length).map
            fun j => if i = j then 1 else 0 := by
        apply List.map_congr_left
        intro j _
        simp only [Function.comp_apply]
        rcases eq_or_ne i j with h | h
        · simp [h]
        · rw [if_neg (by omega), if_neg h]
      rw [hTail, dotN_cons, if_neg (by omega), zero_mult, Nat.zero_xor,
        ih i (fun x hx => hd x (by simp [hx])) (by simpa using hi)]
      rfl

/-- A scalar multiple moves into a dot product. -/
theorem scalar_dotN (c : Nat) (hc : c < 256) (v : List Nat) : ∀ w : List Nat,
    VecLt v → VecLt w → mult c (dotN v w) = dotN (v.map (mult c)) w := by
  induction v with
  | nil => intro w _ _; simp [dotN_nil_left, mult_zero]
  | cons a v ih =>
    intro w hv hw
    cases w with
    | nil => simp [dotN_nil_right, mult_zero]
    | cons b w =>
      have ha : a < 256 := hv a (by simp)
      have hb : b < 256 := hw b (by simp)
      have hv' : VecLt v := fun x hx => hv x (by simp [hx])
      have hw' : VecLt w := fun x hx => hw x (by simp [hx])
      rw [List.map_cons, dotN_cons, dotN_cons,
        mult_xor c (mult a b) (dotN v w) hc (mult_lt a b ha hb)
          (dotN_lt v w hv' hw'),
        ih w hv' hw', ← mult_assoc c a b hc ha hb]

/-- dot is additive in the left vector. -/
theorem dotN_add_left (u : List Nat) : ∀ (v w : List Nat),
    u.length = v.length → VecLt u → VecLt v → VecLt w →
    dotN (List.zipWith (fun x y => x ^^^ y) u v) w = dotN u w ^^^ dotN v w := by
  induction u with
  | nil =>
    intro v w hl _ _ _
    have : v = [] := List.eq_nil_of_length_eq_zero hl.symm
    simp [this, dotN_nil_left]
  | cons a u ih =>
    intro v w hl hu hv hw
    cases v with
    | nil => simp at hl
    | cons b v =>
      cases w with
      | nil => simp [dotN_nil_right]
      | cons c w =>
        have ha : a < 256 := hu a (by simp)
        have hb : b < 256 := hv b (by simp)
        have hc : c < 256 := hw c (by simp)
        have hu' : VecLt u := fun x hx => hu x (by simp [hx])
        have hv' : VecLt v := fun x hx => hv x (by simp [hx])
        have hw' : VecLt w := fun x hx => hw x (by simp [hx])
        rw [List.zipWith_cons_cons, dotN_cons, dotN_cons, dotN_cons,
          ih v w (by simpa using hl) hu' hv' hw',
          xor_mult a b c ha hb hc, Nat.xor_assoc, Nat.xor_assoc]
        congr 1
        rw [← Nat.xor_assoc, Nat.xor_comm (mult b c) (dotN u w), Nat.xor_assoc]

/-- Mapping a pointwise xor is the zipWith of the two maps. -/
theorem map_xor_zipWith {α : Type} (f g : α → Nat) (l : List α) :
    l.map (fun x => f x ^^^ g x)
      = List.zipWith (fun x y => x ^^^ y) (l.map f) (l.map g) := by
  induction l with
  | nil => rfl
  | cons a l ih =>
    rw [List.map_cons, List.map_cons, List.map_cons, List.zipWith_cons_cons, ih]

/-- A list is the range-indexed map of its own getD. -/
theorem range_getD_eq {α : Type} (d : α) : ∀ (r : List α),
    (List.range r.length).map (fun j => r.getD j d) = r := by
  intro r
  apply List.ext_getElem
  · simp
  · intro i h1 h2
    simp [List.getD_eq_getElem?_getD, List.getElem?_eq_getElem h2]

/-- Reading a byte vector anywhere yields a byte. -/
theorem getD_lt (r : List Nat) (l : Nat) (hr : VecLt r) : r.getD l 0 < 256 := by
  rcases Nat.lt_or_ge l r.length with h | h
  · rw [List.getD_eq_getElem?_getD, List.getElem?_eq_getElem h, Option.getD_some]
    exact hr _ (List.getElem_mem h)
  · rw [List.getD_eq_default _ _ h]
    norm_num

/-- Columns of byte matrices are byte vectors. -/
theorem colN_lt (A : List (List Nat)) (l : Nat) (hA : ∀ r ∈ A, VecLt r) :
    VecLt (colN A l) := by
  intro x hx
  rcases List.mem_map.mp hx with ⟨r, hr, hrx⟩
  exact hrx ▸ getD_lt r l (hA r hr)

/-- Row vector times matrix, columnwise. -/
def vmN (bv : List Nat) (A : List (List Nat)) (n : Nat) : List Nat :=
  (List.range n).map fun l => dotN bv (colN A l)

/-- Length of the row-vector product. -/
theorem vmN_length (bv : List Nat) (A : List (List Nat)) (n : Nat) :
    (vmN bv A n).length = n := by simp [vmN]

/-- Entries of the row-vector product are bytes. -/
theorem vmN_lt (bv : List Nat) (A : List (List Nat)) (n : Nat)
    (hbv : VecLt bv) (hA : ∀ r ∈ A, VecLt r) : VecLt (vmN bv A n) := by
  intro x hx
  rcases List.mem_map.mp hx with ⟨l, _, hl⟩
  exact hl ▸ dotN_lt _ _ hbv (colN_lt A l hA)

/-- Row-vector product with the empty vector. -/
theorem vmN_nil (A : List (List Nat)) (n : Nat) :
    vmN [] A n = List.replicate n 0 := by
  unfold vmN
  rw [List.map_congr_left (fun l _ => dotN_nil_left (colN A l)),
    List.map_const', List.length_range]

/-- Row-vector product unfolded over a leading entry and row. -/
theorem vmN_cons (b : Nat) (bv : List Nat) (r : List Nat) (A : List (List Nat))
    (n : Nat) (hr : r.length = n) :
    vmN (b :: bv) (r :: A) n
      = List.zipWith (fun x y => x ^^^ y) (r.map (mult b)) (vmN bv A n) := by
  unfold vmN
  have h1 : ∀ l ∈ List.range n, dotN (b :: bv) (colN (r :: A) l)
      = mult b (r.getD l 0) ^^^ dotN bv (colN A l) := by
    intro l _
    rw [show colN (r :: A) l = r.getD l 0 :: colN A l from rfl, dotN_cons]
  rw [List.map_congr_left h1, map_xor_zipWith]
  congr 1
  have h2 : ((List.range n).map fun l => r.getD l 0) = r := by
    rw [← hr]
    exact range_getD_eq 0 r
  calc ((List.range n).map fun l => mult b (r.getD l 0))
      = ((List.range n).map fun l => r.getD l 0).map (mult b) := by
        rw [List.map_map]
        rfl
    _ = r.map (mult b) := by rw [h2]

/-- The central rearrangement: dotting a vector against the rowwise dots of
a matrix is dotting its row-vector product against the column. -/
theorem dotN_swap (bv : List Nat) : ∀ (A : List (List Nat)) (d : List Nat),
    bv.length = A.length → VecLt bv → (∀ r ∈ A, VecLt r) →
    (∀ r ∈ A, r.length = d.length) → VecLt d →
    dotN bv (A.map fun r => dotN r d) = dotN (vmN bv A d.length) d := by
  induction bv with
  | nil =>
    intro A d _ _ _ _ _
    rw [dotN_nil_left, vmN_nil, dotN_zero_row]
  | cons b bv ih =>
    intro A d hl hbv hA hAd hd
    cases A with
    | nil => simp at hl
    | cons r A =>
      have hb : b < 256 := hbv b (by simp)
      have hbv' : VecLt bv := fun x hx => hbv x (by simp [hx])
      have hr : VecLt r := hA r (by simp)
      have hA' : ∀ q ∈ A, VecLt q := fun q hq => hA q (by simp [hq])
      have hAd' : ∀ q ∈ A, q.length = d.length := fun q hq => hAd q (by simp [hq])
      have hrd : r.length = d.length := hAd r (by simp)
      rw [List.map_cons, dotN_cons, ih A d (by simpa using hl) hbv' hA' hAd' hd,
        scalar_dotN b hb r d hr hd,
        ← dotN_add_left (r.map (mult b)) (vmN bv A d.length) d
          (by simp [vmN_length, hrd])
          (fun x hx => by
            rcases List.mem_map.mp hx with ⟨y, hy, hxy⟩
            exact hxy ▸ mult_lt b y hb (hr y hy))
          (vmN_lt bv A d.length hbv' hA') hd,
        ← vmN_cons b bv r A d.length hrd]

/-! Bridges between the Int operations of the source and the Nat model. -/

/-- xorZ on embedded Nats is Nat xor. -/
theorem xorZ_natCast (a b : Nat) :
    xorZ (a : Int) (b : Int) = ((a ^^^ b : Nat) : Int) := by
  unfold xorZ
  rw [if_pos (Int.natCast_nonneg a), if_pos (Int.natCast_nonneg b),
    Int.toNat_natCast, Int.toNat_natCast]

/-- multZ on embedded bytes is mult. -/
theorem multZ_natCast (a b : Nat) (ha : a < 256) (hb : b < 256) :
    multZ (a : Int) (b : Int) = ((mult a b : Nat) : Int) := by
  unfold multZ
  by_cases h : a = 0 ∨ b = 0
  · rw [if_pos (by rcases h with h | h <;> simp [h])]
    rcases h with h | h
    · rw [h, zero_mult]
      rfl
    · rw [h, mult_zero]
      rfl
  · rw [if_neg (by simpa using h)]
    rw [Int.emod_eq_of_lt (Int.natCast_nonneg a) (by exact_mod_cast ha),
      Int.emod_eq_of_lt (Int.natCast_nonneg b) (by exact_mod_cast hb),
      Int.toNat_natCast, Int.toNat_natCast]

/-- The fold of dotZ on embedded byte vectors computes the Nat fold. -/
theorem dotZ_fold_cast (v : List Nat) : ∀ (w : List Nat), VecLt v → VecLt w →
    ∀ init : Nat,
    (List.zip (castV v) (castV w)).foldl
        (fun r p => xorZ r (multZ p.1 p.2)) (init : Int)
      = (((List.zip v w).foldl (fun r p => r ^^^ mult p.1 p.2) init : Nat) : Int) := by
  induction v with
  | nil => intro w _ _ init; simp [castV]
  | cons a v ih =>
    intro w hv hw init
    cases w with
    | nil => simp [castV]
    | cons b w =>
      unfold castV
      rw [List.map_cons, List.map_cons, List.zip_cons_cons, List.foldl_cons,
        List.zip_cons_cons, List.foldl_cons,
        multZ_natCast a b (hv a (by simp)) (hw b (by simp)), xorZ_natCast]
      exact ih w (fun x hx => hv x (by simp [hx]))
        (fun x hx => hw x (by simp [hx])) (init ^^^ mult a b)

/-- dotZ on embedded byte vectors of equal length is dotN. -/
theorem dotZ_castV (v w : List Nat) (hl : v.length = w.length)
    (hv : VecLt v) (hw : VecLt w) :
    dotZ (castV v) (castV w) = ((dotN v w : Nat) : Int) := by
  unfold dotZ dotN
  rw [if_pos (by unfold castV; rw [List.length_map, List.length_map, hl])]
  exact_mod_cast dotZ_fold_cast v w hv hw 0

/-- getD commutes with map when the default is the image of a default. -/
theorem getD_map_total {α β : Type} (f : α → β) (d0 : α) (l : List α) (i : Nat) :
    (l.map f).getD i (f d0) = f (l.getD i d0) := by
  rcases Nat.lt_or_ge i l.length with h | h
  · rw [List.getD_eq_getElem?_getD, List.getElem?_map, List.getElem?_eq_getElem h,
      List.getD_eq_getElem?_getD, List.getElem?_eq_getElem h]
    rfl
  · rw [List.getD_eq_default _ _ (by simpa using h), List.getD_eq_default _ _ h]

/-- Row extraction commutes with the matrix embedding. -/
theorem castM_getD (m : List (List Nat)) (i : Nat) :
    (castM m).getD i [] = castV (m.getD i []) := by
  have h := getD_map_total castV [] m i
  simpa [castM, castV] using h

/-- Entry extraction commutes with the vector embedding. -/
theorem castV_getD (v : List Nat) (k : Nat) :
    (castV v).getD k 0 = ((v.getD k 0 : Nat) : Int) := by
  have h := getD_map_total (fun x : Nat => (x : Int)) 0 v k
  simpa [castV] using h

/-- All entries of an Int matrix are bytes. -/
def MatB (m : List (List Int)) : Prop := ∀ r ∈ m, ∀ x ∈ r, 0 ≤ x ∧ x < 256

/-- Embedding after truncation is the identity on byte matrices. -/
theorem castM_toNatM (m : List (List Int)) (hm : MatB m) : castM (toNatM m) = m := by
  unfold castM toNatM
  rw [List.map_map]
  calc m.map (castV ∘ fun r => r.map Int.toNat)
      = m.map (fun r => r) := by
        apply List.map_congr_left
        intro r hr
        simp only [Function.comp_apply, castV, List.map_map]
        calc r.map ((fun x : Nat => (x : Int)) ∘ Int.toNat)
            = r.map (fun x => x) := by
              apply List.map_congr_left
              intro x hx
              simp [Int.toNat_of_nonneg (hm r hr x hx).1]
          _ = r := List.map_id' r
    _ = m := List.map_id' m

/-- Truncation of a byte matrix has byte rows. -/
theorem toNatM_lt (m : List (List Int)) (hm : MatB m) :
    ∀ r ∈ toNatM m, VecLt r := by
  intro r hr
  rcases List.mem_map.mp hr with ⟨q, hq, hqr⟩
  intro x hx
  rcases List.mem_map.mp (hqr ▸ hx) with ⟨y, hy, hyx⟩
  have := hm q hq y hy
  omega

/-- The identity embeds to the identity. -/
theorem eyeZ_castM (n : Nat) : castM (eyeN n) = eyeZ n := by
  unfold castM eyeN eyeZ castV
  rw [List.map_map]
  apply List.map_congr_left
  intro i _
  simp only [Function.comp_apply, List.map_map]
  apply List.map_congr_left
  intro j _
  simp only [Function.comp_apply]
  split <;> rfl

/-- An in-range getD is a member. -/
theorem getD_mem {α : Type} (l : List α) (i : Nat) (d : α) (h : i < l.length) :
    l.getD i d ∈ l := by
  rw [List.getD_eq_getElem?_getD, List.getElem?_eq_getElem h, Option.getD_some]
  exact List.getElem_mem h

/-- getElem as getD for an in-range index. -/
theorem getElem_eq_getD {α : Type} (l : List α) (i : Nat) (d : α)
    (h : i < l.length) : l[i] = l.getD i d := by
  rw [List.getD_eq_getElem?_getD, List.getElem?_eq_getElem h]
  rfl

/-- dotN_delta with the basis length given separately. -/
theorem dotN_delta2 (d : List Nat) (i n : Nat) (hd : VecLt d)
    (hn : d.length = n) (hi : i < n) :
    dotN ((List.range n).map fun j => if i = j then 1 else 0) d = d.getD i 0 := by
  subst hn
  exact dotN_delta d i hd hi

/-- The map of a nonempty list is nonempty. -/
theorem map_isEmpty_false {α β : Type} (f : α → β) (l : List α) (h : l ≠ []) :
    (l.map f).isEmpty = false := by
  cases l with
  | nil => exact absurd rfl h
  | cons a t => rfl

end NatModel


namespace RAID6

open GaloisField NatModel

/-- The surviving row indices of an erasure set: data rows then parity
rows, each ascending — the order in which rebuild_stripe_data stacks the
surviving chunks and in which np.delete keeps the rows of A. -/
def survIdx (E : List Nat) : List Nat :=
  ((List.range N).filter fun i => ¬ i ∈ E)
    ++ ((List.range' N M).filter fun i => ¬ i ∈ E)

/-- The erasure-set-specific facts the reconstruction proof needs, all
decidable once E and the inverse output B are fixed: the erasure count is
within M; data and parity rows survive; np.delete keeps exactly the
surviving rows of A, 6 wide with byte entries; and B is a byte matrix with
N rows of width |survIdx E| whose product with the kept rows — computed in
the Nat model — is the identity. -/
def checkEB (E : List Nat) (B : List (List Int)) : Bool :=
  decide (E.length ≤ M) &&
  decide (((List.range N).filter fun i => ¬ i ∈ E) ≠ []) &&
  decide (((List.range' N M).filter fun i => ¬ i ∈ E) ≠ []) &&
  decide (deleteRows AfullZ E = (survIdx E).map fun i => AfullZ.getD i []) &&
  decide (∀ i ∈ survIdx E, i < N + M) &&
  decide (B.length = N) &&
  decide (∀ r ∈ B, r.length = (survIdx E).length ∧ ∀ x ∈ r, 0 ≤ x ∧ x < 256) &&
  decide (∀ r ∈ deleteRows AfullZ E, r.length = N ∧ ∀ x ∈ r, 0 ≤ x ∧ x < 256) &&
  decide (matmulN (toNatM B) (toNatM (deleteRows AfullZ E)) = eyeN N)

/-- checkEB applied to the matrix GaloisField.inverse actually returns on
the kept rows; false when the inverse computation raises. -/
def checkE (E : List Nat) : Bool :=
  match GaloisField.inverse (deleteRows AfullZ E) with
  | none => false
  | some B => checkEB E B

/-- The erasure sets of size at most M = 2 on which reconstruction is
exact: all of them except [5] — there the non-square path's Gram matrix
A'^T A' is singular over GF(2^8), the pivot bug produces a garbage
inverse, and a wrong chunk is silently written — and [6, 7], where the
empty surviving-parity block makes np.concatenate raise ValueError. -/
def goodErasures : List (List Nat) :=
  [[], [0], [1], [2], [3], [4], [6], [7],
   [0, 1], [0, 2], [0, 3], [0, 4], [0, 5], [0, 6], [0, 7],
   [1, 2], [1, 3], [1, 4], [1, 5], [1, 6], [1, 7],
   [2, 3], [2, 4], [2, 5], [2, 6], [2, 7],
   [3, 4], [3, 5], [3, 6], [3, 7],
   [4, 5], [4, 6], [4, 7],
   [5, 6], [5, 7]]

set_option maxHeartbeats 12000000 in
/-- Every listed erasure set passes all the reconstruction checks. -/
theorem checkE_good : goodErasures.all checkE = true := by decide

/-- Entry (t, k) of the recomputed parity block F D. -/
theorem parity_entry (D : List (List Int)) (t k : Nat) (ht : t < 2)
    (hk : k < (D.headD []).length) :
    ((GaloisField.matmulU vanderZ D).getD t []).getD k 0
      = GaloisField.dotZ (vanderZ.getD t []) (D.map fun r => r.getD k 0) := by
  unfold GaloisField.matmulU
  rw [getD_map_lt _ [] [] _ t (by rw [show vanderZ.length = 2 from rfl]; omega)]
  exact getD_map_range _ _ _ _ hk

/-- Row count of the matmul entry grid. -/
theorem matmulU_length (m1 m2 : List (List Int)) :
    (GaloisField.matmulU m1 m2).length = m1.length := by
  unfold GaloisField.matmulU
  rw [List.length_map]

/-- Row i of the matmul entry grid. -/
theorem matmulU_getD (m1 m2 : List (List Int)) (i : Nat) (h : i < m1.length) :
    (GaloisField.matmulU m1 m2).getD i []
      = (List.range (GaloisField.colsOf m2)).map
          fun j => GaloisField.dotZ (m1.getD i []) (m2.map fun r => r.getD j 0) := by
  unfold GaloisField.matmulU
  rw [getD_map_lt _ [] [] _ i h]

set_option maxHeartbeats 1000000 in
/-- Reconstruction is exact on every erasure set that passes checkE: for
every byte data matrix D with N rows of any common width K, encoding the
stripe as (D; F D) and rebuilding with erasure set E returns True and the
unchanged stripe. -/
theorem rebuild_exact (E : List Nat) (hchk : checkE E = true)
    (K : Nat) (D : List (List Int)) (hD6 : D.length = N)
    (hDrect : ∀ r ∈ D, r.length = K) (hDB : NatModel.MatB D) :
    rebuildStripeData (D ++ GaloisField.matmulU vanderZ D) E
      = some (true, D ++ GaloisField.matmulU vanderZ D) := by
  have hN6 : N = 6 := rfl
  have hM2 : M = 2 := rfl
  -- unpack the decidable checks
  unfold checkE at hchk
  rcases hInv : GaloisField.inverse (deleteRows AfullZ E) with _ | B
  · rw [hInv] at hchk
    cases hchk
  rw [hInv] at hchk
  unfold checkEB at hchk
  simp only [Bool.and_eq_true, decide_eq_true_eq] at hchk
  obtain ⟨⟨⟨⟨⟨⟨⟨⟨hlen, hdne⟩, hpne⟩, hdel⟩, hsbd⟩, hBlen⟩, hBrows⟩, hA2rows⟩, hBA⟩ := hchk
  have hBB : NatModel.MatB B := fun r hr x hx => (hBrows r hr).2 x hx
  -- basic shapes
  have hDK : (D.headD []).length = K := by
    cases D with
    | nil => rw [hN6] at hD6; cases hD6
    | cons r D2 => exact hDrect r (by simp)
  have hCZlen : (GaloisField.matmulU vanderZ D).length = 2 := by
    unfold GaloisField.matmulU
    rw [List.length_map]
    rfl
  have hCZrect : ∀ r ∈ GaloisField.matmulU vanderZ D, r.length = K := by
    intro r hr
    unfold GaloisField.matmulU at hr
    rcases List.mem_map.mp hr with ⟨vrow, _, hvr⟩
    rw [← hvr, List.length_map, List.length_range]
    exact hDK
  have hstripeLen : (D ++ GaloisField.matmulU vanderZ D).length = 8 := by
    rw [List.length_append, hD6, hCZlen, hN6]
  have hstripeRect : ∀ i, i < 8 →
      ((D ++ GaloisField.matmulU vanderZ D).getD i []).length = K := by
    intro i hi
    rcases Nat.lt_or_ge i 6 with h6 | h6
    · rw [List.getD_append _ _ _ _ (by omega)]
      exact hDrect _ (getD_mem D i [] (by omega))
    · rw [List.getD_append_right _ _ _ _ (by omega)]
      exact hCZrect _ (getD_mem _ _ [] (by rw [hCZlen]; omega))
  -- Nat-model data matrix
  have hDcast : castM (toNatM D) = D := castM_toNatM D hDB
  have hDNB : ∀ r ∈ toNatM D, VecLt r := toNatM_lt D hDB
  have hDNlen : (toNatM D).length = 6 := by
    unfold toNatM
    rw [List.length_map, hD6, hN6]
  have hdNlen : ∀ k : Nat, (colN (toNatM D) k).length = 6 := by
    intro k
    unfold colN
    rw [List.length_map, hDNlen]
  have hdNlt : ∀ k : Nat, VecLt (colN (toNatM D) k) :=
    fun k => colN_lt (toNatM D) k hDNB
  have hrowD : ∀ i, i < 6 → D.getD i [] = castV ((toNatM D).getD i []) := by
    intro i _
    conv_lhs => rw [← hDcast]
    exact castM_getD (toNatM D) i
  have hdcol : ∀ k : Nat,
      (D.map fun r => r.getD k 0) = castV (colN (toNatM D) k) := by
    intro k
    conv_lhs => rw [← hDcast]
    unfold castM castV colN
    rw [List.map_map, List.map_map]
    apply List.map_congr_left
    intro rN _
    simpa [castV] using castV_getD rN k
  have hswapidx : ∀ i k : Nat, (colN (toNatM D) k).getD i 0
      = ((toNatM D).getD i []).getD k 0 := by
    intro i k
    unfold colN
    have h := getD_map_total (fun r : List Nat => r.getD k 0) [] (toNatM D) i
    simpa using h
  -- the combined matrix in the Nat model (all concrete)
  have hANdata : ∀ i, i < 6 → (toNatM AfullZ).getD i []
      = (List.range 6).map fun j => if i = j then 1 else 0 := by decide
  have hANB : ∀ r ∈ toNatM AfullZ, VecLt r := by
    have h : ∀ r ∈ toNatM AfullZ, ∀ x ∈ r, x < 256 := by decide
    exact h
  have hvrow : ∀ t, t < 2 →
      vanderZ.getD t [] = castV ((toNatM AfullZ).getD (6 + t) []) := by decide
  have hvlen : ∀ t, t < 2 → ((toNatM AfullZ).getD (6 + t) []).length = 6 := by decide
  have hANmem : ∀ i, i < 8 → (toNatM AfullZ).getD i [] ∈ toNatM AfullZ := by
    intro i hi
    exact getD_mem _ _ _ (by rw [show (toNatM AfullZ).length = 8 from by decide]; omega)
  -- the cell formula: every stripe entry is a Nat-model dot of an A row
  -- with a data column
  have hent : ∀ i, i < 8 → ∀ k, k < K →
      (((D ++ GaloisField.matmulU vanderZ D).getD i []).getD k 0)
        = ((dotN ((toNatM AfullZ).getD i []) (colN (toNatM D) k) : Nat) : Int) := by
    intro i hi k hk
    rcases Nat.lt_or_ge i 6 with h6 | h6
    · rw [List.getD_append _ _ _ _ (by omega), hrowD i h6, castV_getD,
        hANdata i h6,
        dotN_delta2 (colN (toNatM D) k) i 6 (hdNlt k) (hdNlen k) h6, hswapidx]
    · rw [List.getD_append_right _ _ _ _ (by omega)]
      have ht : i - D.length < 2 := by omega
      have hiD : i = 6 + (i - D.length) := by omega
      rw [parity_entry D (i - D.length) k ht (by omega),
        hvrow (i - D.length) ht, hdcol k,
        dotZ_castV _ _ (by rw [hvlen (i - D.length) ht, hdNlen])
          (hANB _ (hANmem _ (by omega))) (hdNlt k),
        ← hiD]
  -- survivors
  have hsne : survIdx E ≠ [] := by
    intro h
    unfold survIdx at h
    exact hdne (List.append_eq_nil.mp h).1
  -- the concatenation step succeeds and stacks the surviving rows
  have hcat : concatRows
      (((List.range N).filter fun i => ¬ i ∈ E).map
        fun i => (D ++ GaloisField.matmulU vanderZ D).getD i [])
      (((List.range' N M).filter fun i => ¬ i ∈ E).map
        fun i => (D ++ GaloisField.matmulU vanderZ D).getD i [])
      = some ((survIdx E).map
          fun i => (D ++ GaloisField.matmulU vanderZ D).getD i []) := by
    unfold concatRows
    rw [if_neg (by
      rw [map_isEmpty_false _ _ hdne, map_isEmpty_false _ _ hpne]
      simp), ← List.map_append]
    rfl
  -- the two matmul guards
  have hBcols : GaloisField.colsOf B = (survIdx E).length := by
    cases hB : B with
    | nil =>
      rw [hB] at hBlen
      simp [hN6] at hBlen
    | cons r t =>
      show r.length = _
      exact (hBrows r (by rw [hB]; simp)).1
  have hm2 : GaloisField.matmul B ((survIdx E).map
      fun i => (D ++ GaloisField.matmulU vanderZ D).getD i [])
      = some (GaloisField.matmulU B ((survIdx E).map
          fun i => (D ++ GaloisField.matmulU vanderZ D).getD i [])) := by
    unfold GaloisField.matmul
    rw [if_pos (by rw [hBcols]; unfold GaloisField.rowsOf; rw [List.length_map])]
  -- the core equality: the reconstructed data block is D
  have hDNrect : ∀ r ∈ toNatM D, r.length = K := by
    intro r hr
    rcases List.mem_map.mp hr with ⟨q, hq, hqr⟩
    rw [← hqr, List.length_map]
    exact hDrect q hq
  have hcore : GaloisField.matmulU B ((survIdx E).map
      fun i => (D ++ GaloisField.matmulU vanderZ D).getD i []) = D := by
    have hA2N : toNatM (deleteRows AfullZ E)
        = (survIdx E).map fun i => (toNatM AfullZ).getD i [] := by
      rw [hdel]
      unfold toNatM
      rw [List.map_map]
      apply List.map_congr_left
      intro j _
      simp only [Function.comp_apply]
      exact (getD_map_total (fun r : List Int => r.map Int.toNat) [] AfullZ j).symm
    have hA2Nlen : (toNatM (deleteRows AfullZ E)).length = (survIdx E).length := by
      rw [hA2N, List.length_map]
    have hA2NB : ∀ r ∈ toNatM (deleteRows AfullZ E), VecLt r :=
      toNatM_lt _ (fun r hr x hx => (hA2rows r hr).2 x hx)
    have hA2Nrect : ∀ r ∈ toNatM (deleteRows AfullZ E), r.length = 6 := by
      intro r hr
      rcases List.mem_map.mp hr with ⟨q, hq, hqr⟩
      rw [← hqr, List.length_map, (hA2rows q hq).1, hN6]
    have hBNlen : (toNatM B).length = 6 := by
      unfold toNatM
      rw [List.length_map, hBlen, hN6]
    have hE2cols : GaloisField.colsOf ((survIdx E).map
        fun i => (D ++ GaloisField.matmulU vanderZ D).getD i []) = K := by
      unfold GaloisField.colsOf
      cases hs : survIdx E with
      | nil => exact absurd hs hsne
      | cons i0 t =>
        rw [List.map_cons]
        show ((D ++ GaloisField.matmulU vanderZ D).getD i0 []).length = K
        exact hstripeRect i0 (by
          have := hsbd i0 (by rw [hs]; simp)
          omega)
    apply List.ext_getElem
    · rw [matmulU_length, hBlen, hD6]
    · intro i h1 h2
      have hi6 : i < 6 := by
        rw [hD6, hN6] at h2
        exact h2
      have hiB : i < B.length := by
        rw [hBlen, hN6]
        exact hi6
      rw [getElem_eq_getD _ i [] h1, matmulU_getD B _ i hiB, hE2cols,
        ← getElem_eq_getD B i [] hiB]
      have hBi : B[i] = castV ((toNatM B).getD i []) := by
        rw [getElem_eq_getD B i [] hiB]
        conv_lhs => rw [← castM_toNatM B hBB]
        exact castM_getD (toNatM B) i
      have hbNmem : (toNatM B).getD i [] ∈ toNatM B :=
        getD_mem _ _ _ (by rw [hBNlen]; exact hi6)
      have hbNlt : VecLt ((toNatM B).getD i []) := toNatM_lt B hBB _ hbNmem
      have hbNlen : ((toNatM B).getD i []).length = (survIdx E).length := by
        rcases List.mem_map.mp hbNmem with ⟨q, hq, hqe⟩
        rw [← hqe, List.length_map]
        exact (hBrows q hq).1
      have hcolsA2 : ((toNatM (deleteRows AfullZ E)).headD []).length = 6 := by
        cases hA : toNatM (deleteRows AfullZ E) with
        | nil =>
          rw [hA] at hA2Nlen
          exact absurd (List.length_eq_zero.mp hA2Nlen.symm) hsne
        | cons r t =>
          show r.length = 6
          exact hA2Nrect r (by rw [hA]; simp)
      have hrowEye : vmN ((toNatM B).getD i []) (toNatM (deleteRows AfullZ E)) 6
          = (List.range 6).map fun j => if i = j then 1 else 0 := by
        have hstep : (matmulN (toNatM B) (toNatM (deleteRows AfullZ E))).getD i []
            = vmN ((toNatM B).getD i []) (toNatM (deleteRows AfullZ E)) 6 := by
          unfold matmulN vmN
          rw [getD_map_lt _ [] [] _ i (by rw [hBNlen]; exact hi6), hcolsA2]
        rw [← hstep, hBA, hN6]
        exact getD_map_range _ [] 6 i hi6
      have hDNirect : ((toNatM D).getD i []).length = K :=
        hDNrect _ (getD_mem _ _ [] (by rw [hDNlen]; exact hi6))
      have hRHS : D[i] = (List.range K).map
          fun k => ((((toNatM D).getD i []).getD k 0 : Nat) : Int) := by
        rw [getElem_eq_getD D i [] (by rw [hD6, hN6]; exact hi6), hrowD i hi6]
        calc castV ((toNatM D).getD i [])
            = ((List.range K).map
                fun k => ((toNatM D).getD i []).getD k 0).map
                  (fun x : Nat => (x : Int)) := by
              rw [show (List.range K).map
                  (fun k => ((toNatM D).getD i []).getD k 0)
                  = (toNatM D).getD i [] from by
                rw [← hDNirect]
                exact range_getD_eq 0 _]
              rfl
          _ = (List.range K).map
              fun k => ((((toNatM D).getD i []).getD k 0 : Nat) : Int) := by
            rw [List.map_map]
            rfl
      rw [hRHS]
      apply List.map_congr_left
      intro k hkr
      have hk : k < K := List.mem_range.mp hkr
      have hcolE2 : (((survIdx E).map fun j =>
          (D ++ GaloisField.matmulU vanderZ D).getD j []).map fun r => r.getD k 0)
          = castV ((toNatM (deleteRows AfullZ E)).map
              fun rN => dotN rN (colN (toNatM D) k)) := by
        rw [List.map_map, hA2N, List.map_map]
        unfold castV
        rw [List.map_map]
        apply List.map_congr_left
        intro j hj
        simp only [Function.comp_apply]
        exact hent j (by have := hsbd j hj; omega) k hk
      have hinnerLt : VecLt ((toNatM (deleteRows AfullZ E)).map
          fun rN => dotN rN (colN (toNatM D) k)) := by
        intro x hx
        rcases List.mem_map.mp hx with ⟨rN, hrN, hrx⟩
        exact hrx ▸ dotN_lt _ _ (hA2NB rN hrN) (hdNlt k)
      rw [hcolE2, hBi,
        dotZ_castV _ _ (by rw [hbNlen, List.length_map, hA2Nlen]) hbNlt hinnerLt]
      congr 1
      rw [dotN_swap _ _ _ (by rw [hbNlen, hA2Nlen]) hbNlt hA2NB
          (fun r hr => by rw [hA2Nrect r hr, hdNlen k]) (hdNlt k),
        hdNlen k, hrowEye,
        dotN_delta2 _ i 6 (hdNlt k) (hdNlen k) hi6, hswapidx]
  have hm3 : GaloisField.matmul vanderZ D
      = some (GaloisField.matmulU vanderZ D) := by
    unfold GaloisField.matmul
    rw [if_pos (by
      rw [show GaloisField.colsOf vanderZ = 6 from by decide]
      unfold GaloisField.rowsOf
      omega)]
  -- assemble
  unfold rebuildStripeData
  rw [if_neg (by omega)]
  simp only [hcat, hInv, hm2, hcore, hm3]
  have hfin : ((List.range (N + M)).map fun i =>
      if i ∈ E then (D ++ GaloisField.matmulU vanderZ D).getD i []
      else (D ++ GaloisField.matmulU vanderZ D).getD i [])
      = D ++ GaloisField.matmulU vanderZ D := by
    rw [List.map_congr_left (fun i _ => ite_self _),
      show N + M = 8 from rfl, ← hstripeLen]
    exact range_getD_eq [] _
  rw [hfin]


end RAID6

/-- C1 (supporting theorem): erasure correctness holds for every erasure
pattern in the verified list goodErasures, which contains all 35 subsets of
[0, N+M) of size at most M except [5] and [6, 7] (those two fail, see the
counterexample): for any 6-row byte data matrix D of any width K, encoding
it into D ++ F·D, erasing the rows of E and invoking rebuildStripeData
returns success with exactly the original stripe. -/
theorem claim_C1 (E : List Nat) (hE : E ∈ RAID6.goodErasures)
    (K : Nat) (D : List (List Int)) (hD6 : D.length = RAID6.N)
    (hDrect : ∀ r ∈ D, r.length = K) (hDB : NatModel.MatB D) :
    RAID6.rebuildStripeData (D ++ GaloisField.matmulU RAID6.vanderZ D) E
      = some (true, D ++ GaloisField.matmulU RAID6.vanderZ D) :=
  RAID6.rebuild_exact E (List.all_eq_true.mp RAID6.checkE_good E hE) K D hD6 hDrect hDB

/-- C1 counterexample: two erasure sets of size at most M = 2 break the
claim on the encoded stripe of D = [[1],[2],[3],[4],[5],[6]] (whose parity
F·D is [[7],[21]]): erasing only row 5 returns success with a WRONG stripe
(row 5 is rebuilt as [7] instead of [6]), because the pivot-search loop in
GaloisField.inverse reuses a stale loop variable; and erasing both parity
rows [6, 7] makes np.concatenate raise (modelled as none). -/
theorem claim_C1_counterexample :
    GaloisField.matmulU RAID6.vanderZ [[1],[2],[3],[4],[5],[6]] = [[7],[21]]
    ∧ ([5].length ≤ RAID6.M
      ∧ RAID6.rebuildStripeData [[1],[2],[3],[4],[5],[6],[7],[21]] [5]
          = some (true, [[1],[2],[3],[4],[5],[7],[7],[21]])
      ∧ RAID6.rebuildStripeData [[1],[2],[3],[4],[5],[6],[7],[21]] [5]
          ≠ some (true, [[1],[2],[3],[4],[5],[6],[7],[21]]))
    ∧ ([6, 7].length ≤ RAID6.M
      ∧ RAID6.rebuildStripeData [[1],[2],[3],[4],[5],[6],[7],[21]] [6, 7]
          = none) := by
  decide

/-- C1 witness: the supporting theorem applied at E = [0, 1] and
D = [[1],[2],[3],[4],[5],[6]]: the two erased data rows are rebuilt exactly. -/
theorem claim_C1_witness :
    RAID6.rebuildStripeData
        ([[1],[2],[3],[4],[5],[6]] ++ GaloisField.matmulU RAID6.vanderZ [[1],[2],[3],[4],[5],[6]])
        [0, 1]
      = some (true,
          [[1],[2],[3],[4],[5],[6]] ++ GaloisField.matmulU RAID6.vanderZ [[1],[2],[3],[4],[5],[6]]) :=
  claim_C1 [0, 1] (by decide) 1 [[1],[2],[3],[4],[5],[6]] (by decide) (by decide)
    (show NatModel.MatB [[1],[2],[3],[4],[5],[6]] from by unfold NatModel.MatB; decide)

namespace RAID6

/-- np.argmax scan: walk the remaining entries keeping the running maximum
m, the index i of the next entry, and the index best of the first maximal
entry seen so far; a later entry wins only when strictly larger. -/
def argmaxAux : List Int → Int → Nat → Nat → Nat
  | [], _, _, best => best
  | x :: xs, m, i, best =>
    if m < x then argmaxAux xs x (i + 1) i else argmaxAux xs m (i + 1) best

/-- np.argmax of a 1-d int array: the index of the first maximal entry. -/
def argmaxIdx (v : List Int) : Nat := argmaxAux v.tail (v.headD 0) 1 0

/-- RAID6.compute_parity (src/raid6.py): res has shape
(vander rows, data shape[1], data shape[2]) and
res[i][j][k] = gf.dot(vander[i, :], data[:, j, k]). -/
def computeParity (padded : List (List (List Int))) : List (List (List Int)) :=
  (List.range M).map fun i =>
    (List.range (padded.headD []).length).map fun j =>
      (List.range ((padded.headD []).headD []).length).map fun k =>
        GaloisField.dotZ (vanderZ.getD i [])
          (padded.map fun dsk => (dsk.getD j []).getD k 0)

/-- gf.add on two 3-d numpy int arrays of equal shape: elementwise xor. -/
def xor3 (a b : List (List (List Int))) : List (List (List Int)) :=
  (a.zip b).map fun p =>
    (p.1.zip p.2).map fun q =>
      (q.1.zip q.2).map fun r => GaloisField.xorZ r.1 r.2

/-- Overwrite one byte of a 3-d array: m[d][s][k] = v. -/
def set3 (m : List (List (List Int))) (d s k : Nat) (v : Int) :
    List (List (List Int)) :=
  m.set d ((m.getD d []).set s (((m.getD d []).getD s []).set k v))

/-- One iteration of the detection loop of RAID6.check_strip_corruption:
what iteration i appends to corrupted_chunk.  idx_max is np.argmax of the
P-delta row of stripe i; Pmax and Qmax are the P- and Q-delta entries at
that index. -/
def stripVerdict (checksumDiff : List (List (List Int))) (i : Nat) :
    List (Int × Nat) :=
  let row0 := (checksumDiff.getD 0 []).getD i []
  let row1 := (checksumDiff.getD 1 []).getD i []
  let idxMax := argmaxIdx row0
  let pmax := row0.getD idxMax 0
  let qmax := row1.getD idxMax 0
  if 0 < pmax ∧ 0 < qmax then [(GaloisField.divZ qmax pmax - 1, i)]
  else if 0 < pmax then [((N : Int), i)]
  else if 0 < qmax then [((1 + N : Int), i)]
  else []

/-- RAID6.check_strip_corruption (src/raid6.py) as a pure function of the
state it reads from disk: user_data (the N x strip x chunk_size data
chunks), checksum (the M x strip x chunk_size parity chunks) and the
stripe count self.strip.  It recomputes the parity of user_data, xors it
against the stored checksum, and per stripe reports via stripVerdict. -/
def checkStripCorruption (strip : Nat)
    (userData checksum : List (List (List Int))) : List (Int × Nat) :=
  let newChecksum := computeParity userData
  let checksumDiff := xor3 (newChecksum.take 2) (checksum.take 2)
  (List.range strip).foldl (fun acc i => acc ++ stripVerdict checksumDiff i) []

/-- Shape of a 3-d list array. -/
def Cube (m : List (List (List Int))) (a b c : Nat) : Prop :=
  m.length = a ∧ ∀ p ∈ m, p.length = b ∧ ∀ q ∈ p, q.length = c

/-- All entries of a 3-d list array are bytes. -/
def CubeB (m : List (List (List Int))) : Prop :=
  ∀ p ∈ m, ∀ q ∈ p, ∀ x ∈ q, 0 ≤ x ∧ x < 256

end RAID6

namespace RAID6

/-- getD after set at the same index. -/
theorem getD_set_self {α : Type} (l : List α) (i : Nat) (x d : α)
    (h : i < l.length) : (l.set i x).getD i d = x := by
  rw [List.getD_eq_getElem?_getD, List.getElem?_set_self h]
  rfl

/-- getD after set at a different index. -/
theorem getD_set_other {α : Type} (l : List α) (i j : Nat) (x d : α)
    (h : i ≠ j) : (l.set i x).getD j d = l.getD j d := by
  rw [List.getD_eq_getElem?_getD, List.getElem?_set_ne h,
    ← List.getD_eq_getElem?_getD]

/-- Writing back the value already stored changes nothing. -/
theorem set_getD_cancel {α : Type} (l : List α) (i : Nat) (d : α)
    (_h : i < l.length) : l.set i (l.getD i d) = l := by
  apply List.ext_getElem
  · simp
  · intro j h1 h2
    simp only [List.getElem_set]
    split
    · next heq =>
      subst heq
      exact List.getD_eq_getElem l d h2
    · rfl

/-- set on a map over a range is the map of the pointwise update. -/
theorem set_map_range {α : Type} (n i : Nat) (f : Nat → α) (x : α)
    (_hi : i < n) :
    ((List.range n).map f).set i x
      = (List.range n).map fun j => if i = j then x else f j := by
  apply List.ext_getElem
  · simp
  · intro j h1 h2
    simp [List.getElem_set]

/-- Two maps over range 2 agree when they agree at 0 and 1. -/
theorem map2_ext {α : Type} (F G : Nat → α) (h0 : F 0 = G 0)
    (h1 : F 1 = G 1) : (List.range 2).map F = (List.range 2).map G := by
  show [F 0, F 1] = [G 0, G 1]
  rw [h0, h1]

/-- The accumulator factors out of an append-fold. -/
theorem foldl_append_out {α : Type} (g : Nat → List α) :
    ∀ (l : List Nat) (acc : List α),
      l.foldl (fun a i => a ++ g i) acc
        = acc ++ l.foldl (fun a i => a ++ g i) [] := by
  intro l
  induction l with
  | nil => intro acc; simp
  | cons x xs ih =>
    intro acc
    simp only [List.foldl_cons]
    rw [ih (acc ++ g x), ih ([] ++ g x)]
    simp

/-- An append-fold over a range where every step appends nothing. -/
theorem foldl_append_empty {α : Type} (g : Nat → List α) (S : Nat)
    (hz : ∀ i < S, g i = []) :
    (List.range S).foldl (fun a i => a ++ g i) [] = [] := by
  induction S with
  | zero => rfl
  | succ n ih =>
    rw [List.range_succ, List.foldl_append]
    rw [ih (fun i hi => hz i (by omega))]
    simp [hz n (by omega)]

/-- An append-fold over a range where only step s appends something. -/
theorem foldl_append_single {α : Type} (g : Nat → List α) (S s : Nat)
    (hs : s < S) (hz : ∀ i < S, i ≠ s → g i = []) :
    (List.range S).foldl (fun a i => a ++ g i) [] = g s := by
  induction S with
  | zero => omega
  | succ n ih =>
    rw [List.range_succ, List.foldl_append]
    rcases Nat.lt_succ_iff_lt_or_eq.mp hs with h | h
    · rw [ih h fun i hi hne => hz i (by omega) hne]
      simp [hz n (by omega) (by omega)]
    · subst h
      rw [foldl_append_empty g s (fun i hi => hz i (by omega) (by omega))]
      simp

/-- The equation of the np.argmax scan on a cons cell. -/
theorem argmaxAux_cons (x : Int) (xs : List Int) (m : Int) (i best : Nat) :
    argmaxAux (x :: xs) m i best
      = if m < x then argmaxAux xs x (i + 1) i
        else argmaxAux xs m (i + 1) best := rfl

/-- getD anywhere in a replicate with the replicated default. -/
theorem getD_replicate_self {α : Type} (d : α) :
    ∀ (n j : Nat), (List.replicate n d).getD j d = d := by
  intro n
  induction n with
  | zero => intro j; rfl
  | succ m ih =>
    intro j
    cases j with
    | zero => rfl
    | succ jj =>
      rw [List.replicate_succ, List.getD_cons_succ]
      exact ih jj

/-- The np.argmax scan never moves off best when no entry beats m. -/
theorem argmaxAux_skip : ∀ (xs : List Int) (m : Int) (i best : Nat),
    (∀ x ∈ xs, x ≤ m) → argmaxAux xs m i best = best := by
  intro xs
  induction xs with
  | nil => intro m i best _; rfl
  | cons x xs ih =>
    intro m i best h
    unfold argmaxAux
    rw [if_neg (by have := h x (by simp); omega)]
    exact ih m (i + 1) best fun y hy => h y (by simp [hy])

/-- The np.argmax scan walks over leading zeros without moving best. -/
theorem argmaxAux_replicate_zero (k : Nat) :
    ∀ (rest : List Int) (m : Int) (i best : Nat), 0 ≤ m →
      argmaxAux (List.replicate k 0 ++ rest) m i best
        = argmaxAux rest m (i + k) best := by
  induction k with
  | zero => intro rest m i best _; simp
  | succ n ih =>
    intro rest m i best h
    rw [List.replicate_succ, List.cons_append, argmaxAux_cons]
    rw [if_neg (by omega)]
    rw [ih rest m (i + 1) best h]
    congr 1
    omega

/-- np.argmax of a row that is zero except for one positive entry at
index k is k. -/
theorem argmax_delta (k r : Nat) (e : Int) (he : 0 < e) :
    argmaxIdx (List.replicate k 0 ++ e :: List.replicate r 0) = k := by
  cases k with
  | zero =>
    unfold argmaxIdx
    simp only [List.replicate, List.nil_append, List.tail_cons,
      List.headD_cons]
    exact argmaxAux_skip _ e 1 0 fun x hx => by
      have hx0 : x = 0 := List.eq_of_mem_replicate hx
      omega
  | succ n =>
    unfold argmaxIdx
    rw [List.replicate_succ, List.cons_append]
    simp only [List.tail_cons, List.headD_cons]
    rw [argmaxAux_replicate_zero n (e :: List.replicate r 0) 0 1 0 le_rfl]
    rw [argmaxAux_cons, if_pos he]
    rw [argmaxAux_skip _ e _ _ fun x hx => by
      have hx0 : x = 0 := List.eq_of_mem_replicate hx
      omega]
    omega

/-- np.argmax of an all-zero row is 0. -/
theorem argmax_replicate_zero (C : Nat) :
    argmaxIdx (List.replicate C (0 : Int)) = 0 := by
  cases C with
  | zero => rfl
  | succ n =>
    unfold argmaxIdx
    rw [List.replicate_succ]
    simp only [List.tail_cons, List.headD_cons]
    exact argmaxAux_skip _ 0 1 0 fun x hx => by
      have hx0 : x = 0 := List.eq_of_mem_replicate hx
      omega

/-- A one-hot row over a range as replicate-append-cons. -/
theorem delta_row_eq (C k : Nat) (e : Int) (hk : k < C) :
    ((List.range C).map fun c => if c = k then e else 0)
      = List.replicate k 0 ++ e :: List.replicate (C - k - 1) 0 := by
  apply List.ext_getElem
  · simp
    omega
  · intro i h1 h2
    simp only [List.getElem_map, List.getElem_range]
    rcases Nat.lt_trichotomy i k with h | h | h
    · rw [List.getElem_append_left (by simpa using h)]
      simp [List.getElem_replicate, Nat.ne_of_lt h]
    · subst h
      rw [List.getElem_append_right (by simp)]
      simp
    · rw [List.getElem_append_right (by simp; omega)]
      rw [NatModel.getElem_eq_getD _ _ (0 : Int) (by
        simp only [List.length_map, List.length_range] at h1
        simp
        omega)]
      rw [if_neg (by omega)]
      rw [show i - (List.replicate k (0 : Int)).length = (i - k - 1) + 1
        from by simp; omega]
      rw [List.getD_cons_succ]
      exact (getD_replicate_self 0 _ _).symm

end RAID6

namespace GaloisField

/-- Elementwise xor of any numpy int with itself is 0. -/
theorem xorZ_self (x : Int) : xorZ x x = 0 := by
  unfold xorZ
  split <;> simp [Nat.xor_self]

/-- Dividing a product of nonzero bytes by its second factor recovers the
first. -/
theorem div_mult_right (a b : Nat) (ha : a < 256) (hb : b < 256)
    (ha0 : a ≠ 0) (hb0 : b ≠ 0) : div (mult a b) b = a := by
  have hm := mult_lt a b ha hb
  have hm0 := mult_ne_zero a b ha hb ha0 hb0
  have hla := logT_lt a ha ha0
  have hlb := logT_lt b hb hb0
  rw [(div_log (mult a b) b hm hb hm0 hb0).1, logT_mult a b ha hb ha0 hb0]
  have hred : (((((logT a + logT b) % 255 : Nat) : Int) - (logT b : Nat))
      % 255).toNat = logT a := by omega
  rw [hred, ilogT_logT a ha ha0]

/-- divZ on embedded nonzero bytes is div. -/
theorem divZ_natCast (a b : Nat) (ha : a < 256) (hb : b < 256)
    (ha0 : a ≠ 0) (hb0 : b ≠ 0) :
    divZ (a : Int) (b : Int) = div a b := by
  unfold divZ
  rw [if_neg (by exact_mod_cast ha0), if_neg (by exact_mod_cast hb0)]
  congr 1 <;> omega

end GaloisField

namespace NatModel

/-- Changing one coordinate of the right vector changes dotN by the
product of the matching left entry with the xor of old and new values. -/
theorem dotN_set : ∀ (v w : List Nat) (d x : Nat),
    VecLt v → VecLt w → x < 256 → d < w.length →
    dotN v (w.set d x)
      = dotN v w ^^^ GaloisField.mult (v.getD d 0) (w.getD d 0 ^^^ x) := by
  intro v
  induction v with
  | nil =>
    intro w d x _ _ _ _
    rw [dotN_nil_left, dotN_nil_left]
    simp [GaloisField.zero_mult]
  | cons a v ih =>
    intro w d x hv hw hx hd
    cases w with
    | nil => simp at hd
    | cons b w =>
      have ha : a < 256 := hv a (by simp)
      have hb : b < 256 := hw b (by simp)
      cases d with
      | zero =>
        simp only [List.set, List.getD_cons_zero]
        rw [dotN_cons, dotN_cons, GaloisField.mult_xor a b x ha hb hx]
        rw [Nat.xor_comm (GaloisField.mult a b) (dotN v w), Nat.xor_assoc,
          ← Nat.xor_assoc (GaloisField.mult a b), Nat.xor_self,
          Nat.zero_xor, Nat.xor_comm]
      | succ d =>
        simp only [List.set, List.getD_cons_succ]
        rw [dotN_cons, dotN_cons,
          ih w d x (fun y hy => hv y (by simp [hy]))
            (fun y hy => hw y (by simp [hy])) hx (by simpa using hd),
          Nat.xor_assoc]

/-- Casting back the toNat image of a nonnegative Int vector. -/
theorem castV_toNatV (v : List Int) (hv : ∀ x ∈ v, 0 ≤ x) :
    castV (v.map Int.toNat) = v := by
  unfold castV
  rw [List.map_map]
  exact (List.map_congr_left fun x hx => by
    simp [Int.toNat_of_nonneg (hv x hx)]).trans (List.map_id v)

end NatModel

namespace RAID6

/-- computeParity written with its shape arguments named. -/
theorem computeParity_eq (U : List (List (List Int))) (S C : Nat)
    (hS : (U.headD []).length = S)
    (hC : ((U.headD []).headD []).length = C) :
    computeParity U
      = (List.range 2).map fun t => (List.range S).map fun j =>
          (List.range C).map fun c =>
            GaloisField.dotZ (vanderZ.getD t [])
              (U.map fun dsk => (dsk.getD j []).getD c 0) := by
  unfold computeParity
  simp only [hS, hC]
  rfl

/-- xor3 of two arrays given as pointwise range maps. -/
theorem xor3_range (S C : Nat) (F G : Nat → Nat → Nat → Int) :
    xor3
        ((List.range 2).map fun t => (List.range S).map fun j =>
          (List.range C).map fun c => F t j c)
        ((List.range 2).map fun t => (List.range S).map fun j =>
          (List.range C).map fun c => G t j c)
      = (List.range 2).map fun t => (List.range S).map fun j =>
          (List.range C).map fun c => GaloisField.xorZ (F t j c) (G t j c) := by
  unfold xor3
  rw [List.zip_map', List.map_map]
  apply List.map_congr_left
  intro t _
  simp only [Function.comp_apply]
  rw [List.zip_map', List.map_map]
  apply List.map_congr_left
  intro j _
  simp only [Function.comp_apply]
  rw [List.zip_map', List.map_map]
  apply List.map_congr_left
  intro c _
  rfl

/-- set3 on an array given as a pointwise range map. -/
theorem set3_range (S C t0 s k : Nat) (Pf : Nat → Nat → Nat → Int) (v : Int)
    (ht0 : t0 < 2) (hs : s < S) (hk : k < C) :
    set3
        ((List.range 2).map fun t => (List.range S).map fun j =>
          (List.range C).map fun c => Pf t j c) t0 s k v
      = (List.range 2).map fun t => (List.range S).map fun j =>
          (List.range C).map fun c =>
            if t0 = t ∧ s = j ∧ k = c then v else Pf t j c := by
  unfold set3
  rw [getD_map_range _ _ 2 t0 ht0, getD_map_range _ _ S s hs]
  rw [set_map_range C k _ v hk, set_map_range S s _ _ hs,
    set_map_range 2 t0 _ _ ht0]
  apply List.map_congr_left
  intro t _
  by_cases ht : t0 = t
  · subst ht
    rw [if_pos rfl]
    apply List.map_congr_left
    intro j _
    by_cases hj : s = j
    · subst hj
      rw [if_pos rfl]
      apply List.map_congr_left
      intro c _
      by_cases hc : k = c
      · subst hc
        rw [if_pos rfl, if_pos ⟨rfl, rfl, rfl⟩]
      · rw [if_neg hc, if_neg fun hcon => hc hcon.2.2]
    · rw [if_neg hj]
      apply List.map_congr_left
      intro c _
      rw [if_neg fun hcon => hj hcon.2.1]
  · rw [if_neg ht]
    apply List.map_congr_left
    intro j _
    apply List.map_congr_left
    intro c _
    rw [if_neg fun hcon => ht hcon.1]

end RAID6

namespace RAID6

/-- One data column after a one-byte data corruption: only the column of
the corrupted stripe and offset changes, and it changes by a set at the
corrupted disk. -/
theorem col_set3 (D : List (List (List Int))) (d s k j c : Nat) (v : Int)
    (hd : d < D.length) (hsl : s < (D.getD d []).length)
    (hkl : k < ((D.getD d []).getD s []).length) :
    (set3 D d s k v).map (fun dsk => (dsk.getD j []).getD c 0)
      = if j = s ∧ c = k
        then (D.map fun dsk => (dsk.getD j []).getD c 0).set d v
        else D.map fun dsk => (dsk.getD j []).getD c 0 := by
  unfold set3
  rw [List.map_set]
  by_cases hj : j = s
  · subst hj
    rw [getD_set_self _ _ _ _ hsl]
    by_cases hc : c = k
    · subst hc
      rw [getD_set_self _ _ _ _ hkl, if_pos ⟨rfl, rfl⟩]
    · rw [getD_set_other _ _ _ _ _ fun h => hc h.symm,
        if_neg fun hcon => hc hcon.2]
      rw [show ((D.getD d []).getD j []).getD c 0
          = (D.map fun dsk => (dsk.getD j []).getD c 0).getD d 0
        from (getD_map_lt (fun dsk => (dsk.getD j []).getD c 0)
          0 [] D d hd).symm]
      exact set_getD_cancel _ d 0 (by simpa using hd)
  · rw [getD_set_other _ _ _ _ _ fun h => hj h.symm,
      if_neg fun hcon => hj hcon.1]
    rw [show ((D.getD d []).getD j []).getD c 0
        = (D.map fun dsk => (dsk.getD j []).getD c 0).getD d 0
      from (getD_map_lt (fun dsk => (dsk.getD j []).getD c 0)
        0 [] D d hd).symm]
    exact set_getD_cancel _ d 0 (by simpa using hd)

/-- Every entry of a data column of a byte cube is a byte. -/
theorem col_byte (D : List (List (List Int))) (hDB : CubeB D) (j c : Nat) :
    ∀ x ∈ D.map (fun dsk => (dsk.getD j []).getD c 0), 0 ≤ x ∧ x < 256 := by
  intro x hx
  rcases List.mem_map.mp hx with ⟨dsk, hdsk, rfl⟩
  rcases Nat.lt_or_ge j dsk.length with hj | hj
  · rcases Nat.lt_or_ge c (dsk.getD j []).length with hc | hc
    · exact hDB dsk hdsk _ (NatModel.getD_mem dsk j [] hj) _
        (NatModel.getD_mem _ c 0 hc)
    · rw [List.getD_eq_default _ _ hc]
      norm_num
  · rw [List.getD_eq_default _ _ hj]
    simp

/-- dotZ of an embedded byte row against a byte column, in Nat form. -/
theorem dotZ_vrow (vn : List Nat) (hvn : NatModel.VecLt vn) (col : List Int)
    (hlen : col.length = vn.length) (hB : ∀ x ∈ col, 0 ≤ x ∧ x < 256) :
    GaloisField.dotZ (NatModel.castV vn) col
      = ((NatModel.dotN vn (col.map Int.toNat) : Nat) : Int) := by
  conv_lhs => rw [← NatModel.castV_toNatV col fun x hx => (hB x hx).1]
  exact NatModel.dotZ_castV vn (col.map Int.toNat)
    (by rw [List.length_map, hlen]) hvn
    (fun x hx => by
      rcases List.mem_map.mp hx with ⟨y, hy, rfl⟩
      have := (hB y hy).2
      omega)

/-- The two rows of the Vandermonde matrix as embedded byte vectors. -/
theorem vanderZ_rows :
    vanderZ.getD 0 [] = NatModel.castV [1, 1, 1, 1, 1, 1]
      ∧ vanderZ.getD 1 [] = NatModel.castV [1, 2, 3, 4, 5, 6] := by decide

/-- Entries of the two Vandermonde rows. -/
theorem vrow_entries : ∀ d, d < 6 →
    ([1, 1, 1, 1, 1, 1] : List Nat).getD d 0 = 1
      ∧ ([1, 2, 3, 4, 5, 6] : List Nat).getD d 0 = d + 1 := by decide

end RAID6

namespace RAID6

/-- checkStripCorruption with its local definitions inlined. -/
theorem checkStripCorruption_eq (strip : Nat)
    (ud ck : List (List (List Int))) :
    checkStripCorruption strip ud ck
      = (List.range strip).foldl
          (fun acc i => acc ++
            stripVerdict (xor3 ((computeParity ud).take 2) (ck.take 2)) i)
          [] := rfl

/-- stripVerdict once the two delta rows of stripe i are known. -/
theorem stripVerdict_rows (diff : List (List (List Int))) (i : Nat)
    (row0 row1 : List Int)
    (h0 : (diff.getD 0 []).getD i [] = row0)
    (h1 : (diff.getD 1 []).getD i [] = row1) :
    stripVerdict diff i
      = if 0 < row0.getD (argmaxIdx row0) 0 ∧ 0 < row1.getD (argmaxIdx row0) 0
        then [(GaloisField.divZ (row1.getD (argmaxIdx row0) 0)
                (row0.getD (argmaxIdx row0) 0) - 1, i)]
        else if 0 < row0.getD (argmaxIdx row0) 0 then [((N : Int), i)]
        else if 0 < row1.getD (argmaxIdx row0) 0 then [((1 + N : Int), i)]
        else [] := by
  unfold stripVerdict
  rw [h0, h1]

/-- Row (t, j) of a 3-d pointwise range map. -/
theorem diff_row (S C : Nat) (F : Nat → Nat → Nat → Int) (t j : Nat)
    (ht : t < 2) (hj : j < S) :
    ((((List.range 2).map fun t => (List.range S).map fun j =>
        (List.range C).map fun c => F t j c).getD t []).getD j [])
      = (List.range C).map fun c => F t j c := by
  rw [getD_map_range _ [] 2 t ht, getD_map_range _ [] S j hj]

/-- The constant-zero row over a range. -/
theorem range_map_zero (C : Nat) :
    ((List.range C).map fun _ => (0 : Int)) = List.replicate C 0 := by
  apply List.ext_getElem
  · simp
  · intro i h1 h2
    simp

end RAID6

namespace RAID6

set_option maxHeartbeats 1000000 in
/-- The detection loop on a checksum difference that is zero outside one
stripe s, where the P- and Q-delta rows of stripe s are one-hot at offset
k with values p and q. -/
theorem checkStrip_core (S C s k : Nat) (hs : s < S) (hk : k < C)
    (p q : Int) (hp0 : 0 ≤ p) (_hq0 : 0 ≤ q)
    (ud ck : List (List (List Int)))
    (hdiff : xor3 ((computeParity ud).take 2) (ck.take 2)
      = (List.range 2).map fun t => (List.range S).map fun j =>
          (List.range C).map fun c =>
            if j = s ∧ c = k then (if t = 0 then p else q) else 0) :
    checkStripCorruption S ud ck
      = if 0 < p ∧ 0 < q then [(GaloisField.divZ q p - 1, s)]
        else if 0 < p then [((N : Int), s)]
        else if 0 < q ∧ k = 0 then [((1 + N : Int), s)]
        else [] := by
  have hC : 0 < C := by omega
  rw [checkStripCorruption_eq, hdiff]
  rw [foldl_append_single _ S s hs (fun i hi hne => by
    rw [stripVerdict_rows _ i (List.replicate C 0) (List.replicate C 0)
      (by
        rw [diff_row S C _ 0 i (by norm_num) hi, ← range_map_zero]
        apply List.map_congr_left
        intro c _
        rw [if_neg fun hcon => hne hcon.1])
      (by
        rw [diff_row S C _ 1 i (by norm_num) hi, ← range_map_zero]
        apply List.map_congr_left
        intro c _
        rw [if_neg fun hcon => hne hcon.1])]
    rw [getD_replicate_self, if_neg (by simp), if_neg (by simp),
      if_neg (by simp)])]
  have h0s : ((((List.range 2).map fun t => (List.range S).map fun j =>
      (List.range C).map fun c =>
        if j = s ∧ c = k then (if t = 0 then p else q) else 0).getD 0
          []).getD s [])
      = (List.range C).map fun c => if c = k then p else 0 := by
    rw [diff_row S C _ 0 s (by norm_num) hs]
    apply List.map_congr_left
    intro c _
    by_cases hc : c = k
    · simp [hc]
    · simp [hc]
  have h1s : ((((List.range 2).map fun t => (List.range S).map fun j =>
      (List.range C).map fun c =>
        if j = s ∧ c = k then (if t = 0 then p else q) else 0).getD 1
          []).getD s [])
      = (List.range C).map fun c => if c = k then q else 0 := by
    rw [diff_row S C _ 1 s (by norm_num) hs]
    apply List.map_congr_left
    intro c _
    by_cases hc : c = k
    · simp [hc]
    · simp [hc]
  by_cases hp : 0 < p
  · rw [stripVerdict_rows _ s _ _ h0s h1s]
    have hmax : argmaxIdx ((List.range C).map fun c =>
        if c = k then p else 0) = k := by
      rw [delta_row_eq C k p hk]
      exact argmax_delta k (C - k - 1) p hp
    rw [hmax]
    rw [getD_map_range _ 0 C k hk, getD_map_range _ 0 C k hk, if_pos rfl,
      if_pos rfl]
    by_cases hq : 0 < q <;> simp [hp, hq]
  · have hp' : p = 0 := by omega
    subst hp'
    rw [stripVerdict_rows _ s (List.replicate C 0)
        ((List.range C).map fun c => if c = k then q else 0)
      (by
        rw [h0s, ← range_map_zero]
        apply List.map_congr_left
        intro c _
        simp) h1s]
    rw [argmax_replicate_zero, getD_replicate_self]
    rw [getD_map_range _ 0 C 0 hC]
    by_cases hk0 : (0 : Nat) = k
    · subst hk0
      by_cases hq : 0 < q <;> simp [hq]
    · have hk0' : k ≠ 0 := fun h => hk0 h.symm
      simp [hk0, hk0']

end RAID6

namespace RAID6

/-- The numpy shape reads head lengths of a nonempty cube. -/
theorem cube_shape (D : List (List (List Int))) (a b c : Nat)
    (hD : Cube D a b c) (ha : 0 < a) (hb : 0 < b) :
    (D.headD []).length = b ∧ ((D.headD []).headD []).length = c := by
  obtain ⟨hlen, hrows⟩ := hD
  have hD0 : D.headD [] ∈ D := by
    cases D with
    | nil => simp at hlen; omega
    | cons d0 rest => simp
  obtain ⟨hblen, hstripes⟩ := hrows _ hD0
  refine ⟨hblen, ?_⟩
  have hs0 : (D.headD []).headD [] ∈ D.headD [] := by
    cases hmem : D.headD [] with
    | nil => rw [hmem] at hblen; simp at hblen; omega
    | cons s0 rest => simp
  exact hstripes _ hs0

/-- Overwriting one byte keeps the shape. -/
theorem cube_set3 (D : List (List (List Int))) (a b c : Nat)
    (hD : Cube D a b c) (d s k : Nat) (v : Int)
    (hd : d < a) (hs : s < b) :
    Cube (set3 D d s k v) a b c := by
  obtain ⟨hlen, hrows⟩ := hD
  have hdl : d < D.length := by omega
  have hdisk := hrows _ (NatModel.getD_mem D d [] hdl)
  refine ⟨by simp [set3, hlen], ?_⟩
  intro p hp
  rcases List.mem_or_eq_of_mem_set hp with hmem | rfl
  · exact hrows p hmem
  · refine ⟨by rw [List.length_set]; exact hdisk.1, ?_⟩
    intro q hq
    rcases List.mem_or_eq_of_mem_set hq with hmem | rfl
    · exact hdisk.2 q hmem
    · have hstr := hdisk.2 _
        (NatModel.getD_mem _ s [] (by rw [hdisk.1]; exact hs))
      rw [List.length_set]
      exact hstr

/-- take 2 of a map over range 2 changes nothing. -/
theorem take_two_range_two {α : Type} (F : Nat → α) :
    ((List.range 2).map F).take 2 = (List.range 2).map F := rfl

end RAID6

namespace RAID6

/-- Checksum difference after corrupting one byte of the stored checksum:
zero everywhere except the corrupted coordinate, where it is the xor of
the true parity entry with the written value. -/
theorem diff_checksum_corrupt (S C : Nat) (D : List (List (List Int)))
    (hD : Cube D 6 S C) (s k t0 : Nat) (hs : s < S) (hk : k < C)
    (ht0 : t0 < 2) (v : Int) :
    xor3 ((computeParity D).take 2)
        ((set3 (computeParity D) t0 s k v).take 2)
      = (List.range 2).map fun t => (List.range S).map fun j =>
          (List.range C).map fun c =>
            if j = s ∧ c = k
            then (if t = t0
              then GaloisField.xorZ (GaloisField.dotZ (vanderZ.getD t0 [])
                (D.map fun dsk => (dsk.getD s []).getD k 0)) v
              else 0)
            else 0 := by
  obtain ⟨hS', hC'⟩ := cube_shape D 6 S C hD (by omega) (by omega)
  rw [computeParity_eq D S C hS' hC']
  rw [set3_range S C t0 s k _ v ht0 hs hk]
  rw [take_two_range_two, take_two_range_two]
  rw [xor3_range]
  apply List.map_congr_left
  intro t _
  apply List.map_congr_left
  intro j _
  apply List.map_congr_left
  intro c _
  by_cases hcond : t0 = t ∧ s = j ∧ k = c
  · obtain ⟨h1, h2, h3⟩ := hcond
    subst h1
    subst h2
    subst h3
    rw [if_pos ⟨rfl, rfl, rfl⟩, if_pos ⟨rfl, rfl⟩, if_pos rfl]
  · rw [if_neg hcond, GaloisField.xorZ_self]
    by_cases hjc : j = s ∧ c = k
    · obtain ⟨h2, h3⟩ := hjc
      subst h2
      subst h3
      rw [if_pos ⟨rfl, rfl⟩, if_neg fun h => hcond ⟨h.symm, rfl, rfl⟩]
    · rw [if_neg hjc]

end RAID6

namespace RAID6

set_option maxHeartbeats 1000000 in
/-- Checksum difference after corrupting one data byte on disk d: zero
everywhere except at the corrupted stripe and offset, where the P delta is
the xor e of old and new byte and the Q delta is mult(d+1, e). -/
theorem diff_data_corrupt (S C : Nat) (D : List (List (List Int)))
    (hD : Cube D 6 S C) (hDB : CubeB D)
    (d s k : Nat) (hd : d < 6) (hs : s < S) (hk : k < C)
    (v : Int) (hv0 : 0 ≤ v) (hv : v < 256) :
    xor3 ((computeParity (set3 D d s k v)).take 2)
        ((computeParity D).take 2)
      = (List.range 2).map fun t => (List.range S).map fun j =>
          (List.range C).map fun c =>
            if j = s ∧ c = k
            then (if t = 0
              then (((((D.getD d []).getD s []).getD k 0).toNat
                ^^^ v.toNat : Nat) : Int)
              else ((GaloisField.mult (d + 1)
                ((((D.getD d []).getD s []).getD k 0).toNat ^^^ v.toNat)
                : Nat) : Int))
            else 0 := by
  have hdl : d < D.length := by rw [hD.1]; exact hd
  have hsl : s < (D.getD d []).length := by
    rw [(hD.2 _ (NatModel.getD_mem D d [] hdl)).1]
    exact hs
  have hkl : k < ((D.getD d []).getD s []).length := by
    rw [(hD.2 _ (NatModel.getD_mem D d [] hdl)).2 _
      (NatModel.getD_mem _ s [] hsl)]
    exact hk
  obtain ⟨hS', hC'⟩ := cube_shape D 6 S C hD (by omega) (by omega)
  obtain ⟨hS2, hC2⟩ := cube_shape (set3 D d s k v) 6 S C
    (cube_set3 D 6 S C hD d s k v hd hs) (by omega) (by omega)
  rw [computeParity_eq _ S C hS2 hC2, computeParity_eq D S C hS' hC']
  rw [take_two_range_two, take_two_range_two, xor3_range]
  have hold := hDB _ (NatModel.getD_mem D d [] hdl) _
    (NatModel.getD_mem _ s [] hsl) _ (NatModel.getD_mem _ k 0 hkl)
  apply List.map_congr_left
  intro t ht
  have ht2 : t < 2 := List.mem_range.mp ht
  apply List.map_congr_left
  intro j _
  apply List.map_congr_left
  intro c _
  rw [col_set3 D d s k j c v hdl hsl hkl]
  by_cases hjc : j = s ∧ c = k
  · obtain ⟨h2, h3⟩ := hjc
    subst h2
    subst h3
    rw [if_pos ⟨rfl, rfl⟩, if_pos ⟨rfl, rfl⟩]
    have hcolB := col_byte D hDB j c
    have hcolLen : (D.map fun dsk => (dsk.getD j []).getD c 0).length = 6 := by
      rw [List.length_map, hD.1]
    have hcolN : NatModel.VecLt
        ((D.map fun dsk => (dsk.getD j []).getD c 0).map Int.toNat) := by
      intro x hx
      rcases List.mem_map.mp hx with ⟨y, hy, rfl⟩
      have := (hcolB y hy).2
      omega
    have hsetB : ∀ x ∈ (D.map fun dsk => (dsk.getD j []).getD c 0).set d v,
        0 ≤ x ∧ x < 256 := by
      intro x hx
      rcases List.mem_or_eq_of_mem_set hx with hmem | rfl
      · exact hcolB x hmem
      · exact ⟨hv0, hv⟩
    have hcold : (D.map fun dsk => (dsk.getD j []).getD c 0).getD d 0
        = ((D.getD d []).getD j []).getD c 0 :=
      getD_map_lt (fun dsk => (dsk.getD j []).getD c 0) 0 [] D d hdl
    have hcNd : ((D.map fun dsk => (dsk.getD j []).getD c 0).map
        Int.toNat).getD d 0 = (((D.getD d []).getD j []).getD c 0).toNat := by
      rw [getD_map_lt Int.toNat 0 0 _ d (by rw [hcolLen]; exact hd), hcold]
    have hxlt : (((D.getD d []).getD j []).getD c 0).toNat ^^^ v.toNat
        < 256 := by
      apply GaloisField.xor_lt
      · omega
      · omega
    rcases (by omega : t = 0 ∨ t = 1) with rfl | rfl
    · rw [vanderZ_rows.1]
      rw [dotZ_vrow [1, 1, 1, 1, 1, 1]
        (by decide : ∀ x ∈ ([1, 1, 1, 1, 1, 1] : List Nat), x < 256) _
        (by rw [List.length_set, hcolLen]; rfl) hsetB]
      rw [dotZ_vrow [1, 1, 1, 1, 1, 1]
        (by decide : ∀ x ∈ ([1, 1, 1, 1, 1, 1] : List Nat), x < 256) _
        (by rw [hcolLen]; rfl) hcolB]
      rw [List.map_set]
      rw [NatModel.dotN_set [1, 1, 1, 1, 1, 1] _ d v.toNat
        (by decide : ∀ x ∈ ([1, 1, 1, 1, 1, 1] : List Nat), x < 256)
        hcolN (by omega) (by rw [List.length_map, hcolLen]; exact hd)]
      rw [NatModel.xorZ_natCast]
      rw [Nat.xor_comm (NatModel.dotN _ _), Nat.xor_assoc, Nat.xor_self,
        Nat.xor_zero]
      rw [hcNd, (vrow_entries d hd).1,
        GaloisField.one_mult _ hxlt, if_pos rfl]
    · rw [vanderZ_rows.2]
      rw [dotZ_vrow [1, 2, 3, 4, 5, 6]
        (by decide : ∀ x ∈ ([1, 2, 3, 4, 5, 6] : List Nat), x < 256) _
        (by rw [List.length_set, hcolLen]; rfl) hsetB]
      rw [dotZ_vrow [1, 2, 3, 4, 5, 6]
        (by decide : ∀ x ∈ ([1, 2, 3, 4, 5, 6] : List Nat), x < 256) _
        (by rw [hcolLen]; rfl) hcolB]
      rw [List.map_set]
      rw [NatModel.dotN_set [1, 2, 3, 4, 5, 6] _ d v.toNat
        (by decide : ∀ x ∈ ([1, 2, 3, 4, 5, 6] : List Nat), x < 256)
        hcolN (by omega) (by rw [List.length_map, hcolLen]; exact hd)]
      rw [NatModel.xorZ_natCast]
      rw [Nat.xor_comm (NatModel.dotN _ _), Nat.xor_assoc, Nat.xor_self,
        Nat.xor_zero]
      rw [hcNd, (vrow_entries d hd).2, if_neg (by omega : ¬(1 : Nat) = 0)]
  · rw [if_neg hjc, if_neg hjc, GaloisField.xorZ_self]

end RAID6

namespace RAID6

/-- One entry of the parity cube. -/
theorem parity_entry3 (D : List (List (List Int))) (S C : Nat)
    (hS : (D.headD []).length = S)
    (hC : ((D.headD []).headD []).length = C)
    (t0 s k : Nat) (ht0 : t0 < 2) (hs : s < S) (hk : k < C) :
    (((computeParity D).getD t0 []).getD s []).getD k 0
      = GaloisField.dotZ (vanderZ.getD t0 [])
          (D.map fun dsk => (dsk.getD s []).getD k 0) := by
  rw [computeParity_eq D S C hS hC]
  rw [getD_map_range _ [] 2 t0 ht0, getD_map_range _ [] S s hs,
    getD_map_range _ 0 C k hk]

/-- A Q-only one-hot difference written with the branch on t = 0. -/
theorem diff_shape_swap (S C s k : Nat) (eZ : Int) :
    ((List.range 2).map fun t => (List.range S).map fun j =>
      (List.range C).map fun c =>
        if j = s ∧ c = k then (if t = 1 then eZ else 0) else 0)
    = (List.range 2).map fun t => (List.range S).map fun j =>
        (List.range C).map fun c =>
          if j = s ∧ c = k then (if t = 0 then 0 else eZ) else 0 := by
  apply map2_ext
  · apply List.map_congr_left
    intro j _
    apply List.map_congr_left
    intro c _
    norm_num
  · apply List.map_congr_left
    intro j _
    apply List.map_congr_left
    intro c _
    norm_num

end RAID6

set_option maxHeartbeats 1600000 in
/-- C2 (amended): single-byte corruption location by check_strip_corruption
with the true parity stored.  Corrupting data disk d < N at stripe s and
offset k reports exactly [(d, s)]; corrupting the P parity chunk reports
[(N, s)]; corrupting the Q parity chunk reports [(N+1, s)] when the
corrupted offset is 0, and reports NOTHING when the offset is nonzero,
because np.argmax is taken on the all-zero P-delta row. -/
theorem claim_C2 (S C : Nat) (D : List (List (List Int)))
    (hD : RAID6.Cube D 6 S C) (hDB : RAID6.CubeB D) (s k : Nat) (hs : s < S)
    (hk : k < C) (v : Int) (hv0 : 0 ≤ v) (hv : v < 256) :
    (∀ d : Nat, d < 6 → v ≠ ((D.getD d []).getD s []).getD k 0 →
      RAID6.checkStripCorruption S (RAID6.set3 D d s k v)
          (RAID6.computeParity D)
        = [((d : Int), s)])
    ∧ (v ≠ (((RAID6.computeParity D).getD 0 []).getD s []).getD k 0 →
      RAID6.checkStripCorruption S D
          (RAID6.set3 (RAID6.computeParity D) 0 s k v)
        = [((RAID6.N : Int), s)])
    ∧ (k = 0 → v ≠ (((RAID6.computeParity D).getD 1 []).getD s []).getD k 0 →
      RAID6.checkStripCorruption S D
          (RAID6.set3 (RAID6.computeParity D) 1 s k v)
        = [((1 + RAID6.N : Int), s)])
    ∧ (k ≠ 0 → v ≠ (((RAID6.computeParity D).getD 1 []).getD s []).getD k 0 →
      RAID6.checkStripCorruption S D
          (RAID6.set3 (RAID6.computeParity D) 1 s k v) = []) := by
  obtain ⟨hS', hC'⟩ := RAID6.cube_shape D 6 S C hD (by omega) (by omega)
  have hcolB := RAID6.col_byte D hDB s k
  have hcolLen : (D.map fun dsk => (dsk.getD s []).getD k 0).length = 6 := by
    rw [List.length_map, hD.1]
  have hP0 : GaloisField.dotZ (RAID6.vanderZ.getD 0 [])
      (D.map fun dsk => (dsk.getD s []).getD k 0)
      = ((NatModel.dotN [1, 1, 1, 1, 1, 1]
          ((D.map fun dsk => (dsk.getD s []).getD k 0).map Int.toNat)
          : Nat) : Int) := by
    rw [RAID6.vanderZ_rows.1]
    exact RAID6.dotZ_vrow _
      (by decide : ∀ x ∈ ([1, 1, 1, 1, 1, 1] : List Nat), x < 256) _
      (by rw [hcolLen]; rfl) hcolB
  have hP1 : GaloisField.dotZ (RAID6.vanderZ.getD 1 [])
      (D.map fun dsk => (dsk.getD s []).getD k 0)
      = ((NatModel.dotN [1, 2, 3, 4, 5, 6]
          ((D.map fun dsk => (dsk.getD s []).getD k 0).map Int.toNat)
          : Nat) : Int) := by
    rw [RAID6.vanderZ_rows.2]
    exact RAID6.dotZ_vrow _
      (by decide : ∀ x ∈ ([1, 2, 3, 4, 5, 6] : List Nat), x < 256) _
      (by rw [hcolLen]; rfl) hcolB
  refine ⟨?_, ?_, ?_, ?_⟩
  · intro d hd hvne
    have hdl : d < D.length := by rw [hD.1]; exact hd
    have hsl : s < (D.getD d []).length := by
      rw [(hD.2 _ (NatModel.getD_mem D d [] hdl)).1]
      exact hs
    have hkl : k < ((D.getD d []).getD s []).length := by
      rw [(hD.2 _ (NatModel.getD_mem D d [] hdl)).2 _
        (NatModel.getD_mem _ s [] hsl)]
      exact hk
    have hold := hDB _ (NatModel.getD_mem D d [] hdl) _
      (NatModel.getD_mem _ s [] hsl) _ (NatModel.getD_mem _ k 0 hkl)
    have heN : (((D.getD d []).getD s []).getD k 0).toNat ^^^ v.toNat
        ≠ 0 := by
      intro h
      have hx := Nat.xor_eq_zero.mp h
      exact hvne (by omega)
    have heLt : (((D.getD d []).getD s []).getD k 0).toNat ^^^ v.toNat
        < 256 := GaloisField.xor_lt _ _ (by omega) (by omega)
    have hqne : GaloisField.mult (d + 1)
        ((((D.getD d []).getD s []).getD k 0).toNat ^^^ v.toNat) ≠ 0 :=
      GaloisField.mult_ne_zero _ _ (by omega) heLt (by omega) heN
    have hqLt := GaloisField.mult_lt (d + 1)
      ((((D.getD d []).getD s []).getD k 0).toNat ^^^ v.toNat)
      (by omega) heLt
    rw [RAID6.checkStrip_core S C s k hs hk
      (((((D.getD d []).getD s []).getD k 0).toNat ^^^ v.toNat : Nat) : Int)
      ((GaloisField.mult (d + 1)
        ((((D.getD d []).getD s []).getD k 0).toNat ^^^ v.toNat) : Nat)
        : Int)
      (Int.natCast_nonneg _) (Int.natCast_nonneg _) _ _
      (RAID6.diff_data_corrupt S C D hD hDB d s k hd hs hk v hv0 hv)]
    rw [if_pos ⟨Int.natCast_pos.mpr (Nat.pos_of_ne_zero heN),
      Int.natCast_pos.mpr (Nat.pos_of_ne_zero hqne)⟩]
    rw [GaloisField.divZ_natCast _ _ hqLt heLt hqne heN]
    rw [GaloisField.div_mult_right (d + 1) _ (by omega) heLt (by omega) heN]
    have hcast : ((d + 1 : Nat) : Int) - 1 = (d : Int) := by
      push_cast
      ring
    rw [hcast]
  · intro hvne
    rw [RAID6.parity_entry3 D S C hS' hC' 0 s k (by omega) hs hk, hP0]
      at hvne
    have hdiffRaw := RAID6.diff_checksum_corrupt S C D hD s k 0 hs hk
      (by omega) v
    rw [hP0] at hdiffRaw
    rw [show GaloisField.xorZ ((NatModel.dotN [1, 1, 1, 1, 1, 1]
          ((D.map fun dsk => (dsk.getD s []).getD k 0).map Int.toNat)
          : Nat) : Int) v
        = ((NatModel.dotN [1, 1, 1, 1, 1, 1]
            ((D.map fun dsk => (dsk.getD s []).getD k 0).map Int.toNat)
            ^^^ v.toNat : Nat) : Int) from by
      conv_lhs => rw [← Int.toNat_of_nonneg hv0]
      exact NatModel.xorZ_natCast _ _] at hdiffRaw
    have hne : NatModel.dotN [1, 1, 1, 1, 1, 1]
        ((D.map fun dsk => (dsk.getD s []).getD k 0).map Int.toNat)
        ^^^ v.toNat ≠ 0 := by
      intro h
      have hx := Nat.xor_eq_zero.mp h
      exact hvne (by omega)
    rw [RAID6.checkStrip_core S C s k hs hk _ 0 (Int.natCast_nonneg _)
      le_rfl _ _ hdiffRaw]
    rw [if_neg fun hcon => lt_irrefl 0 hcon.2,
      if_pos (Int.natCast_pos.mpr (Nat.pos_of_ne_zero hne))]
  · intro hk0 hvne
    subst hk0
    rw [RAID6.parity_entry3 D S C hS' hC' 1 s 0 (by omega) hs hk, hP1]
      at hvne
    have hdiffRaw := RAID6.diff_checksum_corrupt S C D hD s 0 1 hs hk
      (by omega) v
    rw [hP1] at hdiffRaw
    rw [show GaloisField.xorZ ((NatModel.dotN [1, 2, 3, 4, 5, 6]
          ((D.map fun dsk => (dsk.getD s []).getD 0 0).map Int.toNat)
          : Nat) : Int) v
        = ((NatModel.dotN [1, 2, 3, 4, 5, 6]
            ((D.map fun dsk => (dsk.getD s []).getD 0 0).map Int.toNat)
            ^^^ v.toNat : Nat) : Int) from by
      conv_lhs => rw [← Int.toNat_of_nonneg hv0]
      exact NatModel.xorZ_natCast _ _] at hdiffRaw
    rw [RAID6.diff_shape_swap S C s 0 _] at hdiffRaw
    have hne : NatModel.dotN [1, 2, 3, 4, 5, 6]
        ((D.map fun dsk => (dsk.getD s []).getD 0 0).map Int.toNat)
        ^^^ v.toNat ≠ 0 := by
      intro h
      have hx := Nat.xor_eq_zero.mp h
      exact hvne (by omega)
    rw [RAID6.checkStrip_core S C s 0 hs hk 0 _ le_rfl
      (Int.natCast_nonneg _) _ _ hdiffRaw]
    rw [if_neg fun hcon => lt_irrefl 0 hcon.1, if_neg (lt_irrefl 0),
      if_pos ⟨Int.natCast_pos.mpr (Nat.pos_of_ne_zero hne), rfl⟩]
  · intro hk0 hvne
    rw [RAID6.parity_entry3 D S C hS' hC' 1 s k (by omega) hs hk, hP1]
      at hvne
    have hdiffRaw := RAID6.diff_checksum_corrupt S C D hD s k 1 hs hk
      (by omega) v
    rw [hP1] at hdiffRaw
    rw [show GaloisField.xorZ ((NatModel.dotN [1, 2, 3, 4, 5, 6]
          ((D.map fun dsk => (dsk.getD s []).getD k 0).map Int.toNat)
          : Nat) : Int) v
        = ((NatModel.dotN [1, 2, 3, 4, 5, 6]
            ((D.map fun dsk => (dsk.getD s []).getD k 0).map Int.toNat)
            ^^^ v.toNat : Nat) : Int) from by
      conv_lhs => rw [← Int.toNat_of_nonneg hv0]
      exact NatModel.xorZ_natCast _ _] at hdiffRaw
    rw [RAID6.diff_shape_swap S C s k _] at hdiffRaw
    rw [RAID6.checkStrip_core S C s k hs hk 0 _ le_rfl
      (Int.natCast_nonneg _) _ _ hdiffRaw]
    rw [if_neg fun hcon => lt_irrefl 0 hcon.1, if_neg (lt_irrefl 0),
      if_neg fun hcon => hk0 hcon.2]

/-- C2 counterexample: with six all-zero data chunks (one stripe, two
bytes per chunk) and the true parity stored, corrupting one byte of the Q
parity chunk (disk index 7 = N+1) at offset 1 is NOT located: the locator
returns [] instead of [(N+1, 0)], because np.argmax is evaluated on the
all-zero P-delta row, so the Q delta is read at offset 0 only. -/
theorem claim_C2_counterexample :
    RAID6.checkStripCorruption 1 (List.replicate 6 [[(0 : Int), 0]])
        (RAID6.set3
          (RAID6.computeParity (List.replicate 6 [[(0 : Int), 0]])) 1 0 1 5)
      = []
    ∧ RAID6.checkStripCorruption 1 (List.replicate 6 [[(0 : Int), 0]])
        (RAID6.set3
          (RAID6.computeParity (List.replicate 6 [[(0 : Int), 0]])) 1 0 1 5)
      ≠ [((1 + RAID6.N : Int), 0)] := by
  decide

/-- C2 witness: the amended locator theorem applied to the all-zero
6 x 1 x 2 data cube, corruption value 5 at stripe 0 and offset 1. -/
theorem claim_C2_witness :
    (∀ d : Nat, d < 6 →
      (5 : Int) ≠ (((List.replicate 6 [[(0 : Int), 0]]).getD d
          []).getD 0 []).getD 1 0 →
      RAID6.checkStripCorruption 1
          (RAID6.set3 (List.replicate 6 [[(0 : Int), 0]]) d 0 1 5)
          (RAID6.computeParity (List.replicate 6 [[(0 : Int), 0]]))
        = [((d : Int), 0)])
    ∧ ((5 : Int) ≠ (((RAID6.computeParity
          (List.replicate 6 [[(0 : Int), 0]])).getD 0 []).getD 0
            []).getD 1 0 →
      RAID6.checkStripCorruption 1 (List.replicate 6 [[(0 : Int), 0]])
          (RAID6.set3
            (RAID6.computeParity (List.replicate 6 [[(0 : Int), 0]]))
            0 0 1 5)
        = [((RAID6.N : Int), 0)])
    ∧ ((1 : Nat) = 0 →
      (5 : Int) ≠ (((RAID6.computeParity
          (List.replicate 6 [[(0 : Int), 0]])).getD 1 []).getD 0
            []).getD 1 0 →
      RAID6.checkStripCorruption 1 (List.replicate 6 [[(0 : Int), 0]])
          (RAID6.set3
            (RAID6.computeParity (List.replicate 6 [[(0 : Int), 0]]))
            1 0 1 5)
        = [((1 + RAID6.N : Int), 0)])
    ∧ ((1 : Nat) ≠ 0 →
      (5 : Int) ≠ (((RAID6.computeParity
          (List.replicate 6 [[(0 : Int), 0]])).getD 1 []).getD 0
            []).getD 1 0 →
      RAID6.checkStripCorruption 1 (List.replicate 6 [[(0 : Int), 0]])
          (RAID6.set3
            (RAID6.computeParity (List.replicate 6 [[(0 : Int), 0]]))
            1 0 1 5)
        = []) :=
  claim_C2 1 2 (List.replicate 6 [[(0 : Int), 0]])
    (show RAID6.Cube _ 6 1 2 from by unfold RAID6.Cube; decide)
    (show RAID6.CubeB _ from by unfold RAID6.CubeB; decide)
    0 1 (by decide) (by decide) 5 (by decide) (by decide)
